import Mathlib

/-!
Verification development for the `health-notify` process supervisor.

The development shallowly embeds the three source files:

* `src/lazy_fail_init.rs` — the `LazyFailInit<T>` container, modelled as a
  record of its `initialized` flag and stored optional value, with
  `get_or_create` and `get` as pure state-passing functions (the mutex and
  atomics serialize access; the sequential semantics modelled here is the
  per-caller behaviour they protect).
* `src/sd_notify.rs` — the `NOTIFY_SOCKET` environment handling, modelled
  over the single environment variable's value (`Option String`).
* `src/main.rs` — the startup supervision state machine and the
  steady-state signal relay, modelled as a fuel-bounded interpreter over an
  oracle `Env` that prescribes the outcomes of the external calls (sleeps,
  spawns, drained signal batches, process waits, ignored kill results) and
  that records the observable actions of the supervisor in a trace.
-/

namespace HealthNotify

/-! ### LazyFailInit (src/lazy_fail_init.rs) -/

/-- State of `LazyFailInit<T>` (src/lazy_fail_init.rs lines 27-31): the
`initialized` flag and the contents of the `value` cell.  The `lock` field
only serializes access and carries no data. -/
structure LazyFailInit (T : Type) where
  initialized : Bool
  value : Option T
deriving DecidableEq

/-- `LazyFailInit::new` (src/lazy_fail_init.rs lines 36-42). -/
def LazyFailInit.new (T : Type) : LazyFailInit T :=
  ⟨false, none⟩

/-- `LazyFailInit::get_or_create` (src/lazy_fail_init.rs lines 49-65),
sequential semantics: the double-checked load under the lock reads the same
flag as the fast-path load.  Returns the call's result, the state
afterwards, and whether the creation function `f` was invoked.  The result
carries the `Option` read by `extract()`, whose `unwrap()` succeeds exactly
when it is `some`. -/
def LazyFailInit.get_or_create (s : LazyFailInit T) (f : Unit → Except E T) :
    Except E (Option T) × LazyFailInit T × Bool :=
  if s.initialized = false then
    match f () with
    | Except.error e => (Except.error e, s, true)
    | Except.ok x => (Except.ok (some x), ⟨true, some x⟩, true)
  else
    (Except.ok s.value, s, false)

/-- `LazyFailInit::get` (src/lazy_fail_init.rs lines 70-77): both branches
call `extract()`; the locked branch only waits for an in-flight creation. -/
def LazyFailInit.get (s : LazyFailInit T) : Option T :=
  if s.initialized = true then s.value else s.value

/-- Run a sequence of `get_or_create` calls, threading the state and
collecting each call's result together with whether its creation function
was invoked. -/
def LazyFailInit.runCreates (s : LazyFailInit T) :
    List (Unit → Except E T) → LazyFailInit T × List (Except E (Option T) × Bool)
  | [] => (s, [])
  | f :: fs =>
    let r := s.get_or_create f
    let rest := LazyFailInit.runCreates r.2.1 fs
    (rest.1, (r.1, r.2.2) :: rest.2)

/-! ### sd_notify (src/sd_notify.rs) and the notify setup in main -/

/-- The readiness environment variable name (src/sd_notify.rs line 24). -/
def ENV_VAR : String := "NOTIFY_SOCKET"

/-- `SystemdNotify` (src/sd_notify.rs lines 27-30), minus the lazily opened
socket, which is irrelevant to the environment-inheritance claims. -/
structure SystemdNotify where
  socket_path : String
deriving DecidableEq

/-- `env::remove_var(ENV_VAR)` on the modelled environment, which consists
of the one variable's value (`none` = unset). -/
def env_remove (_envVar : Option String) : Option String :=
  none

/-- `SystemdNotify::from_env` (src/sd_notify.rs lines 33-44): reads the
variable (defaulting to the empty string), removes it from the current
process's environment, and yields `none` when the value was empty.
Returns the constructed value (if any) together with the value of
`NOTIFY_SOCKET` in the environment afterwards. -/
def SystemdNotify.from_env (envVar : Option String) :
    Option SystemdNotify × Option String :=
  let socket_path := envVar.getD ""
  let envAfter := env_remove envVar
  if socket_path = "" then
    (none, envAfter)
  else
    (some ⟨socket_path⟩, envAfter)

/-- `SystemdNotify::take_from_env` (src/sd_notify.rs lines 46-50): calls
`from_env` and then removes the variable (again). -/
def SystemdNotify.take_from_env (envVar : Option String) :
    Option SystemdNotify × Option String :=
  let r := SystemdNotify.from_env envVar
  (r.1, env_remove r.2)

/-- The notify setup in `main` (src/main.rs lines 124-128): `from_env` when
the `--child-notify` flag is set, `take_from_env` otherwise.  The child is
spawned immediately afterwards (src/main.rs lines 130-132) with no
environment modification, so the second component is exactly the value of
`NOTIFY_SOCKET` in the spawned child's environment. -/
def mainNotifySetup (child_notify : Bool) (envVar : Option String) :
    Option SystemdNotify × Option String :=
  if child_notify then
    SystemdNotify.from_env envVar
  else
    SystemdNotify.take_from_env envVar

/-- The probe's environment (src/main.rs line 158): the spawn builder uses
`.env_remove(sd_notify::ENV_VAR)`, on top of the supervisor's current
environment. -/
def probeEnvVar (envVar : Option String) : Option String :=
  env_remove envVar

/-! ### The supervisor (src/main.rs)

The supervisor is driven by external events.  We model them with an oracle
`Env` that prescribes, in call order, the outcome of every external call
the code makes: `shuteye::sleep` results, probe spawn results, the batches
of signal events produced by the `signals.pending()` / `signals.wait()`
iterators, the supervised child's `wait()` status, the probe's `wait()`
statuses, and the (ignored) results of `kill`.  The interpreter consumes
the oracle and records the supervisor's observable actions in a trace. -/

/-- The monitored signal kinds (src/main.rs line 123). -/
inductive Sig
  | INT
  | TERM
  | USR1
  | USR2
  | HUP
  | CHLD
deriving DecidableEq

/-- A delivered signal event, as exposed by the `WithOrigin` exfiltrator:
the signal kind and, when present, the raw originating process id
(`siginfo.process.pid`, a signed 32-bit value, hence `Int`). -/
structure SigEvent where
  signal : Sig
  pid : Option Int
deriving DecidableEq

/-- `sig.process.and_then(|p| u32::try_from(p.pid).ok())` (src/main.rs
lines 170, 200, 241): the originating pid as a `u32`, when present and
convertible. -/
def originPid (e : SigEvent) : Option Nat :=
  match e.pid with
  | none => none
  | some p => if 0 ≤ p ∧ p < 4294967296 then some p.toNat else none

/-- The oracle for the supervisor's external calls, together with the pid
of the supervised child.  `sleeps`: per `shuteye::sleep` call, `none` means
the sleep completed, `some r` means it was interrupted with `r` remaining.
`spawns`: per probe spawn attempt, `some pid` on success.  `batches`: the
successive batches of drained signal events; a batch left unconsumed by an
early `return`/`break` stays pending and is re-queued in front.
`childCode`: the supervised child's `wait()` status code (`none` when the
child was killed by a signal or `wait` failed).  `probeResults`: per probe
`wait()` call, whether the status was success.  `kills`: per `kill` call,
the (always discarded) result. -/
structure Env where
  childPid : Nat
  sleeps : List (Option Nat)
  spawns : List (Option Nat)
  batches : List (List SigEvent)
  childCode : Option Int
  probeResults : List Bool
  kills : List Bool
deriving DecidableEq

/-- Observable actions of the supervisor, in program order. -/
inductive Action
  | sleepFor (d : Nat)
  | forward (s : Sig)
  | spawnProbe
  | spawnOk (pid : Nat)
  | reapChild
  | termProbe (pid : Nat)
  | reapProbe
  | probeExited (success : Bool)
  | notifySent
deriving DecidableEq

/-- Re-queue the unconsumed remainder of a drained batch: those events are
still pending and are the first ones the next drain returns. -/
def requeue (env : Env) (rest : List SigEvent) : Env :=
  match rest with
  | [] => env
  | _ => { env with batches := rest :: env.batches }

/-- Consume one (discarded) `kill` result from the oracle. -/
def popKill (env : Env) : Env :=
  { env with kills := env.kills.tail }

/-- Consume one probe `wait()` result from the oracle. -/
def popProbe (env : Env) : Bool × Env :=
  (env.probeResults.headD false, { env with probeResults := env.probeResults.tail })

/-- Outcome of processing one drained batch in a phase that only watches
for the supervised child's exit (the `Sleeping` drain, src/main.rs lines
167-188, and `propagate_signals`, src/main.rs lines 238-255, which have
identical per-event logic). -/
inductive RelayOutcome
  | exited (code : Int) (env : Env) (acc : List Action)
  | cont (env : Env) (acc : List Action)
deriving DecidableEq

/-- Per-event processing of a drained batch in the `Sleeping` phase
(src/main.rs lines 167-188) and in `propagate_signals` (src/main.rs lines
238-255): a `SIGCHLD` whose origin is the supervised child reaps it and
exits with `status.code().unwrap_or(1)` (the unconsumed remainder staying
pending); any other `SIGCHLD` is skipped; every other signal is forwarded
to the child with the `kill` result discarded. -/
def processRelayBatch : Env → List SigEvent → List Action → RelayOutcome
  | env, [], acc => RelayOutcome.cont env acc
  | env, e :: rest, acc =>
    match e.signal with
    | Sig.CHLD =>
      if originPid e = some env.childPid then
        RelayOutcome.exited (env.childCode.getD 1) (requeue env rest)
          (acc ++ [Action.reapChild])
      else
        processRelayBatch env rest acc
    | s =>
      processRelayBatch (popKill env) rest (acc ++ [Action.forward s])

/-- Outcome of processing one drained batch while `Racing` (the
`'checkLoop` body, src/main.rs lines 197-231). -/
inductive RaceOutcome
  | childExited (code : Int) (env : Env) (acc : List Action)
  | ready (env : Env) (acc : List Action)
  | probeFailed (env : Env) (acc : List Action)
  | cont (env : Env) (acc : List Action)
deriving DecidableEq

/-- Per-event processing of a drained batch while `Racing` (src/main.rs
lines 197-231): a `SIGCHLD` from the supervised child reaps it, sends
`SIGTERM` to the probe (result discarded), reaps the probe (result
discarded) and exits with the child's code; a `SIGCHLD` from the probe
reaps the probe and either succeeds (`Ready`) or fails the attempt
(`break 'checkLoop`); a `SIGCHLD` with an absent, unconvertible or unknown
origin is skipped; every other signal is forwarded to the supervised
child.  On every early exit the unconsumed remainder stays pending. -/
def processRaceBatch : Env → Nat → List SigEvent → List Action → RaceOutcome
  | env, _, [], acc => RaceOutcome.cont env acc
  | env, probePid, e :: rest, acc =>
    match e.signal with
    | Sig.CHLD =>
      match originPid e with
      | some p =>
        if p = env.childPid then
          let env1 := popKill env
          let env2 := (popProbe env1).2
          RaceOutcome.childExited (env.childCode.getD 1) (requeue env2 rest)
            (acc ++ [Action.reapChild, Action.termProbe probePid, Action.reapProbe])
        else if p = probePid then
          let r := popProbe env
          if r.1 then
            RaceOutcome.ready (requeue r.2 rest) (acc ++ [Action.probeExited true])
          else
            RaceOutcome.probeFailed (requeue r.2 rest) (acc ++ [Action.probeExited false])
        else
          processRaceBatch env probePid rest acc
      | none => processRaceBatch env probePid rest acc
    | s =>
      processRaceBatch (popKill env) probePid rest (acc ++ [Action.forward s])

/-- Drain `signals.pending()` (non-blocking): the earliest pending batch,
or the empty batch when nothing is pending. -/
def popPending (env : Env) : List SigEvent × Env :=
  match env.batches with
  | [] => ([], env)
  | b :: bs => (b, { env with batches := bs })

/-- Control state of `wait_for_startup`: counting down the current sleep
(`'waitLoop`'s inner sleep loop) or racing a spawned probe (`'checkLoop`). -/
inductive Phase
  | sleeping (sleepTime : Nat)
  | racing (probePid : Nat)
deriving DecidableEq

/-- `Duration::from_secs(1)` (src/main.rs line 152), in nanoseconds. -/
def initialDelay : Nat := 1000000000

/-- Fuel-bounded interpreter for `wait_for_startup` (src/main.rs lines
143-234).  In phase `sleeping t`: call `shuteye::sleep(t)`; if it
completes, attempt to spawn the probe (success enters `racing`, failure
`continue 'waitLoop` — back to sleeping with the full delay); if it is
interrupted with `r` remaining, drain `signals.pending()` and then sleep
again for `r`.  In phase `racing pid`: drain `signals.wait()` (blocking:
an exhausted oracle means the run is not captured, `none`) and dispatch on
the batch outcome.  Returns the result of `wait_for_startup` (`.error
code` for `Err(exit_code)`), the final oracle state, and the action
trace. -/
def runStartup : Nat → Phase → Env → List Action →
    Option (Except Int Unit × Env × List Action)
  | 0, _, _, _ => none
  | fuel + 1, Phase.sleeping t, env, acc =>
    match env.sleeps with
    | [] => none
    | o :: sl =>
      let env1 := { env with sleeps := sl }
      let acc1 := acc ++ [Action.sleepFor t]
      match o with
      | none =>
        match env1.spawns with
        | [] => none
        | so :: sp =>
          let env2 := { env1 with spawns := sp }
          let acc2 := acc1 ++ [Action.spawnProbe]
          match so with
          | some pid => runStartup fuel (Phase.racing pid) env2 (acc2 ++ [Action.spawnOk pid])
          | none => runStartup fuel (Phase.sleeping initialDelay) env2 acc2
      | some rem =>
        let p := popPending env1
        match processRelayBatch p.2 p.1 acc1 with
        | RelayOutcome.exited code env3 acc3 => some (Except.error code, env3, acc3)
        | RelayOutcome.cont env3 acc3 => runStartup fuel (Phase.sleeping rem) env3 acc3
  | fuel + 1, Phase.racing pid, env, acc =>
    match env.batches with
    | [] => none
    | b :: bs =>
      match processRaceBatch { env with batches := bs } pid b acc with
      | RaceOutcome.childExited code env2 acc2 => some (Except.error code, env2, acc2)
      | RaceOutcome.ready env2 acc2 => some (Except.ok (), env2, acc2)
      | RaceOutcome.probeFailed env2 acc2 => runStartup fuel (Phase.sleeping initialDelay) env2 acc2
      | RaceOutcome.cont env2 acc2 => runStartup fuel (Phase.racing pid) env2 acc2

/-- Fuel-bounded interpreter for `propagate_signals` (src/main.rs lines
236-258): repeatedly drain `signals.wait()` and process the batch with the
same per-event logic as the `Sleeping` drain; returns the child's exit
code, the final oracle state and the trace. -/
def runSteady : Nat → Env → List Action → Option (Int × Env × List Action)
  | 0, _, _ => none
  | fuel + 1, env, acc =>
    match env.batches with
    | [] => none
    | b :: bs =>
      match processRelayBatch { env with batches := bs } b acc with
      | RelayOutcome.exited code env2 acc2 => some (code, env2, acc2)
      | RelayOutcome.cont env2 acc2 => runSteady fuel env2 acc2

/-- The whole supervised run after the child spawn (src/main.rs lines
134-141): run `wait_for_startup`; on `Err(exit_code)` exit with it; on
`Ok`, if a notify channel was constructed, call `notify("READY=1")` (its
result discarded), then run `propagate_signals` and exit with its result.
Returns the overall exit code, the final oracle state and the trace. -/
def mainRun (notifyChannel : Bool) (env : Env) (fuel : Nat) :
    Option (Int × Env × List Action) :=
  match runStartup fuel (Phase.sleeping initialDelay) env [] with
  | none => none
  | some (Except.error code, env1, t) => some (code, env1, t)
  | some (Except.ok _, env1, t) =>
    runSteady fuel env1 (if notifyChannel then t ++ [Action.notifySent] else t)

/-! ### Projections and basic facts about batch processing -/

/-- The oracle state carried by a relay-batch outcome. -/
def RelayOutcome.envOf : RelayOutcome → Env
  | RelayOutcome.exited _ e _ => e
  | RelayOutcome.cont e _ => e

/-- The action trace carried by a relay-batch outcome. -/
def RelayOutcome.accOf : RelayOutcome → List Action
  | RelayOutcome.exited _ _ a => a
  | RelayOutcome.cont _ a => a

/-- The oracle state carried by a race-batch outcome. -/
def RaceOutcome.envOf : RaceOutcome → Env
  | RaceOutcome.childExited _ e _ => e
  | RaceOutcome.ready e _ => e
  | RaceOutcome.probeFailed e _ => e
  | RaceOutcome.cont e _ => e

/-- The action trace carried by a race-batch outcome. -/
def RaceOutcome.accOf : RaceOutcome → List Action
  | RaceOutcome.childExited _ _ a => a
  | RaceOutcome.ready _ a => a
  | RaceOutcome.probeFailed _ a => a
  | RaceOutcome.cont _ a => a

/-- Number of occurrences of an action in a trace. -/
def countA (x : Action) : List Action → Nat
  | [] => 0
  | a :: rest => (if a = x then 1 else 0) + countA x rest

/-- Number of events of a given signal kind in a batch. -/
def countSigList (s : Sig) : List SigEvent → Nat
  | [] => 0
  | e :: rest => (if e.signal = s then 1 else 0) + countSigList s rest

/-- Number of events of a given signal kind in the queued batches. -/
def countSig (s : Sig) : List (List SigEvent) → Nat
  | [] => 0
  | b :: bs => countSigList s b + countSig s bs

/-- Replace the kill-result oracle. -/
def Env.setKills (env : Env) (ks : List Bool) : Env :=
  { env with kills := ks }

/-- Replace the kill-result oracle inside a relay outcome. -/
def RelayOutcome.setKills (ks : List Bool) : RelayOutcome → RelayOutcome
  | RelayOutcome.exited c e a => RelayOutcome.exited c (e.setKills ks) a
  | RelayOutcome.cont e a => RelayOutcome.cont (e.setKills ks) a

/-- Replace the kill-result oracle inside a race outcome. -/
def RaceOutcome.setKills (ks : List Bool) : RaceOutcome → RaceOutcome
  | RaceOutcome.childExited c e a => RaceOutcome.childExited c (e.setKills ks) a
  | RaceOutcome.ready e a => RaceOutcome.ready (e.setKills ks) a
  | RaceOutcome.probeFailed e a => RaceOutcome.probeFailed (e.setKills ks) a
  | RaceOutcome.cont e a => RaceOutcome.cont (e.setKills ks) a

/-- The forwarding actions a sequence of events produces: one per event
whose kind is not the child-exit kind, in delivery order. -/
def forwardsOf : List SigEvent → List Action
  | [] => []
  | e :: rest =>
    match e.signal with
    | Sig.CHLD => forwardsOf rest
    | s => Action.forward s :: forwardsOf rest

/-- Oracle for the C2 counterexample: the probe (pid 20) is spawned at
once; the single racing batch holds the probe-success event before the
child-exit event; the child's status code is 7. -/
def envC2 : Env :=
  ⟨10, [none], [some 20], [[⟨Sig.CHLD, some 20⟩, ⟨Sig.CHLD, some 10⟩]], some 7, [true], []⟩

/-- Oracle for the C2-amended witness: child-exit precedes probe-exit in
the single racing batch. -/
def envC2b : Env :=
  ⟨10, [], [], [[⟨Sig.CHLD, some 10⟩, ⟨Sig.CHLD, some 20⟩]], some 7, [true], [true]⟩

/-- Oracle for the C6 witness: the child exits during startup sleeping
with status code 5. -/
def env6 : Env := ⟨10, [some 9], [], [[⟨Sig.CHLD, some 10⟩]], some 5, [], []⟩

/-- Oracle for the C7 witness: the first spawn attempt fails, the retry
cycle is interrupted by the child's exit with status code 4. -/
def env7 : Env := ⟨10, [none, some 5], [none], [[⟨Sig.CHLD, some 10⟩]], some 4, [], []⟩

/-- Oracle for the C5 and C9 witnesses: the first probe succeeds, one
`SIGINT` is forwarded in steady state, then the child exits with code 0. -/
def env5 : Env :=
  ⟨10, [none], [some 20],
    [[⟨Sig.CHLD, some 20⟩], [⟨Sig.INT, some 99⟩, ⟨Sig.CHLD, some 10⟩]],
    some 0, [true], [true]⟩

/-- The trace of the `env5` run. -/
def t5lit : List Action :=
  [Action.sleepFor initialDelay, Action.spawnProbe, Action.spawnOk 20,
    Action.probeExited true, Action.notifySent, Action.forward Sig.INT,
    Action.reapChild]

/-- The final oracle state of the `env5` run. -/
def e5fin : Env := ⟨10, [], [], [], some 0, [], []⟩

/-- Oracle for the C8 counterexample: the first drained batch holds one
stray child-exit-kind event (origin absent); the second holds the child's
own exit with status code 3. -/
def env8 : Env :=
  ⟨10, [some 77, some 5], [], [[⟨Sig.CHLD, none⟩], [⟨Sig.CHLD, some 10⟩]], some 3, [], []⟩

/-- Oracle for the amended-C8 witness: the interrupted sleep drains a
batch holding one `SIGINT` and one stray child-exit event; the next sleep
is interrupted again and the child's own exit (code 2) arrives. -/
def env8w : Env :=
  ⟨10, [some 42, some 7], [],
    [[⟨Sig.INT, some 99⟩, ⟨Sig.CHLD, none⟩], [⟨Sig.CHLD, some 10⟩]], some 2, [], [true]⟩

theorem requeue_childPid (env : Env) (rest : List SigEvent) :
    (requeue env rest).childPid = env.childPid := by
  cases rest <;> rfl

theorem requeue_childCode (env : Env) (rest : List SigEvent) :
    (requeue env rest).childCode = env.childCode := by
  cases rest <;> rfl

/-- Unfolding: a non-`SIGCHLD` event is forwarded and processing goes on. -/
theorem processRelayBatch_cons_forward (env : Env) (sg : Sig) (hsg : sg ≠ Sig.CHLD)
    (pid : Option Int) (rest : List SigEvent) (acc : List Action) :
    processRelayBatch env (⟨sg, pid⟩ :: rest) acc =
      processRelayBatch (popKill env) rest (acc ++ [Action.forward sg]) := by
  cases sg <;> first | rfl | exact absurd rfl hsg

/-- Unfolding: a `SIGCHLD` event whose origin is not the supervised child
is skipped. -/
theorem processRelayBatch_cons_skip (env : Env) (pid : Option Int)
    (h : originPid ⟨Sig.CHLD, pid⟩ ≠ some env.childPid)
    (rest : List SigEvent) (acc : List Action) :
    processRelayBatch env (⟨Sig.CHLD, pid⟩ :: rest) acc =
      processRelayBatch env rest acc := by
  simp [processRelayBatch, h]

/-- Unfolding: a `SIGCHLD` event from the supervised child exits with the
child's code and re-queues the unconsumed remainder. -/
theorem processRelayBatch_cons_exit (env : Env) (pid : Option Int)
    (h : originPid ⟨Sig.CHLD, pid⟩ = some env.childPid)
    (rest : List SigEvent) (acc : List Action) :
    processRelayBatch env (⟨Sig.CHLD, pid⟩ :: rest) acc =
      RelayOutcome.exited (env.childCode.getD 1) (requeue env rest)
        (acc ++ [Action.reapChild]) := by
  simp [processRelayBatch, h]

/-- Relay-batch processing emits only child-forwardings of non-`SIGCHLD`
kinds and child reaps, appended to the incoming trace. -/
theorem relay_emits (b : List SigEvent) : ∀ env acc, ∃ u,
    (processRelayBatch env b acc).accOf = acc ++ u ∧
    ∀ a ∈ u, (∃ s, s ≠ Sig.CHLD ∧ a = Action.forward s) ∨ a = Action.reapChild := by
  induction b with
  | nil => intro env acc; exact ⟨[], by simp [processRelayBatch, RelayOutcome.accOf]⟩
  | cons e rest ih =>
    intro env acc
    rcases e with ⟨sg, pid⟩
    by_cases hsg : sg = Sig.CHLD
    · subst hsg
      by_cases h : originPid ⟨Sig.CHLD, pid⟩ = some env.childPid
      · refine ⟨[Action.reapChild], ?_, ?_⟩
        · rw [processRelayBatch_cons_exit env pid h]; rfl
        · intro a ha
          rw [List.mem_singleton] at ha
          exact Or.inr ha
      · obtain ⟨u, hu, hin⟩ := ih env acc
        exact ⟨u, by rw [processRelayBatch_cons_skip env pid h]; exact hu, hin⟩
    · obtain ⟨u, hu, hin⟩ := ih (popKill env) (acc ++ [Action.forward sg])
      refine ⟨Action.forward sg :: u, ?_, ?_⟩
      · rw [processRelayBatch_cons_forward env sg hsg, hu]
        simp
      · intro a ha
        rw [List.mem_cons] at ha
        rcases ha with rfl | ha
        · exact Or.inl ⟨sg, hsg, rfl⟩
        · exact hin a ha

/-- Relay-batch processing never touches the child pid or the child's exit
status, and an exit carries `status.code().unwrap_or(1)`. -/
theorem relay_inv (b : List SigEvent) : ∀ env acc,
    (processRelayBatch env b acc).envOf.childPid = env.childPid ∧
    (processRelayBatch env b acc).envOf.childCode = env.childCode ∧
    ∀ code e2 a2, processRelayBatch env b acc = RelayOutcome.exited code e2 a2 →
      code = env.childCode.getD 1 := by
  induction b with
  | nil => intro env acc; simp [processRelayBatch, RelayOutcome.envOf]
  | cons e rest ih =>
    intro env acc
    rcases e with ⟨sg, pid⟩
    by_cases hsg : sg = Sig.CHLD
    · subst hsg
      by_cases h : originPid ⟨Sig.CHLD, pid⟩ = some env.childPid
      · rw [processRelayBatch_cons_exit env pid h]
        refine ⟨by simp [RelayOutcome.envOf, requeue_childPid],
          by simp [RelayOutcome.envOf, requeue_childCode], ?_⟩
        intro code e2 a2 hr
        cases hr
        rfl
      · rw [processRelayBatch_cons_skip env pid h]
        exact ih env acc
    · rw [processRelayBatch_cons_forward env sg hsg]
      simpa [popKill] using ih (popKill env) (acc ++ [Action.forward sg])

/-- Unfolding: while racing, a non-`SIGCHLD` event is forwarded to the
supervised child only. -/
theorem processRaceBatch_cons_forward (env : Env) (probePid : Nat) (sg : Sig)
    (hsg : sg ≠ Sig.CHLD) (pid : Option Int) (rest : List SigEvent) (acc : List Action) :
    processRaceBatch env probePid (⟨sg, pid⟩ :: rest) acc =
      processRaceBatch (popKill env) probePid rest (acc ++ [Action.forward sg]) := by
  cases sg <;> first | rfl | exact absurd rfl hsg

/-- Unfolding: while racing, a `SIGCHLD` event with no usable origin pid is
skipped. -/
theorem processRaceBatch_cons_skip_none (env : Env) (probePid : Nat) (pid : Option Int)
    (h : originPid ⟨Sig.CHLD, pid⟩ = none) (rest : List SigEvent) (acc : List Action) :
    processRaceBatch env probePid (⟨Sig.CHLD, pid⟩ :: rest) acc =
      processRaceBatch env probePid rest acc := by
  simp [processRaceBatch, h]

/-- Unfolding: while racing, a `SIGCHLD` event whose origin matches neither
the supervised child nor the probe is skipped. -/
theorem processRaceBatch_cons_skip_other (env : Env) (probePid : Nat) (pid : Option Int)
    (p : Nat) (h : originPid ⟨Sig.CHLD, pid⟩ = some p)
    (hc : p ≠ env.childPid) (hp : p ≠ probePid)
    (rest : List SigEvent) (acc : List Action) :
    processRaceBatch env probePid (⟨Sig.CHLD, pid⟩ :: rest) acc =
      processRaceBatch env probePid rest acc := by
  simp [processRaceBatch, h, hc, hp]

/-- Unfolding: while racing, a `SIGCHLD` event from the supervised child
reaps the child, terminates and reaps the probe, and exits with the
child's code. -/
theorem processRaceBatch_cons_childExit (env : Env) (probePid : Nat) (pid : Option Int)
    (h : originPid ⟨Sig.CHLD, pid⟩ = some env.childPid)
    (rest : List SigEvent) (acc : List Action) :
    processRaceBatch env probePid (⟨Sig.CHLD, pid⟩ :: rest) acc =
      RaceOutcome.childExited (env.childCode.getD 1)
        (requeue (popProbe (popKill env)).2 rest)
        (acc ++ [Action.reapChild, Action.termProbe probePid, Action.reapProbe]) := by
  simp [processRaceBatch, h]

/-- Unfolding: while racing, a `SIGCHLD` event from the probe (the probe's
pid differing from the child's) reaps the probe and yields `ready` or
`probeFailed` according to its exit status. -/
theorem processRaceBatch_cons_probeExit (env : Env) (probePid : Nat) (pid : Option Int)
    (h : originPid ⟨Sig.CHLD, pid⟩ = some probePid) (hne : probePid ≠ env.childPid)
    (rest : List SigEvent) (acc : List Action) :
    processRaceBatch env probePid (⟨Sig.CHLD, pid⟩ :: rest) acc =
      if (popProbe env).1 then
        RaceOutcome.ready (requeue (popProbe env).2 rest) (acc ++ [Action.probeExited true])
      else
        RaceOutcome.probeFailed (requeue (popProbe env).2 rest)
          (acc ++ [Action.probeExited false]) := by
  simp only [processRaceBatch, h, hne, if_false, if_true]

/-- Race-batch processing emits only non-`SIGCHLD` forwardings, reaps,
probe terminations and probe-exit observations, appended to the incoming
trace; a successful probe-exit observation occurs exactly on the `ready`
outcome. -/
theorem race_emits (b : List SigEvent) : ∀ env probePid acc, ∃ u,
    (processRaceBatch env probePid b acc).accOf = acc ++ u ∧
    (∀ a ∈ u, (∃ s, s ≠ Sig.CHLD ∧ a = Action.forward s) ∨ a = Action.reapChild ∨
      a = Action.termProbe probePid ∨ a = Action.reapProbe ∨
      ∃ flag, a = Action.probeExited flag) ∧
    ((∃ e2 a2, processRaceBatch env probePid b acc = RaceOutcome.ready e2 a2) →
      Action.probeExited true ∈ u) ∧
    (¬ (∃ e2 a2, processRaceBatch env probePid b acc = RaceOutcome.ready e2 a2) →
      Action.probeExited true ∉ u) := by
  induction b with
  | nil =>
    intro env probePid acc
    refine ⟨[], by simp [processRaceBatch, RaceOutcome.accOf], ?_, ?_, ?_⟩
    · intro a ha
      exact absurd ha (List.not_mem_nil a)
    · rintro ⟨e2, a2, habs⟩
      exact RaceOutcome.noConfusion habs
    · intro _
      exact List.not_mem_nil _
  | cons e rest ih =>
    intro env probePid acc
    rcases e with ⟨sg, pid⟩
    by_cases hsg : sg = Sig.CHLD
    · subst hsg
      rcases ho : originPid ⟨Sig.CHLD, pid⟩ with _ | p
      · obtain ⟨u, hu, hin, hr1, hr2⟩ := ih env probePid acc
        rw [processRaceBatch_cons_skip_none env probePid pid ho] at *
        exact ⟨u, hu, hin, hr1, hr2⟩
      · by_cases hc : p = env.childPid
        · subst hc
          rw [processRaceBatch_cons_childExit env probePid pid ho]
          refine ⟨[Action.reapChild, Action.termProbe probePid, Action.reapProbe], rfl, ?_, ?_, ?_⟩
          · intro a ha
            simp only [List.mem_cons, List.not_mem_nil, or_false] at ha
            rcases ha with rfl | rfl | rfl
            · exact Or.inr (Or.inl rfl)
            · exact Or.inr (Or.inr (Or.inl rfl))
            · exact Or.inr (Or.inr (Or.inr (Or.inl rfl)))
          · rintro ⟨e2, a2, habs⟩
            exact RaceOutcome.noConfusion habs
          · intro _
            simp
        · by_cases hp : p = probePid
          · subst hp
            have hne : p ≠ env.childPid := hc
            rw [processRaceBatch_cons_probeExit env p pid ho hne]
            by_cases hr : (popProbe env).1 = true
            · rw [if_pos hr]
              refine ⟨[Action.probeExited true], rfl, ?_, ?_, ?_⟩
              · intro a ha
                rw [List.mem_singleton] at ha
                exact Or.inr (Or.inr (Or.inr (Or.inr ⟨true, ha⟩)))
              · intro _
                exact List.mem_singleton.mpr rfl
              · intro habs
                exact absurd ⟨requeue (popProbe env).2 rest, acc ++ [Action.probeExited true], rfl⟩ habs
            · rw [if_neg hr]
              refine ⟨[Action.probeExited false], rfl, ?_, ?_, ?_⟩
              · intro a ha
                rw [List.mem_singleton] at ha
                exact Or.inr (Or.inr (Or.inr (Or.inr ⟨false, ha⟩)))
              · rintro ⟨e2, a2, habs⟩
                exact RaceOutcome.noConfusion habs
              · intro _
                simp
          · obtain ⟨u, hu, hin, hr1, hr2⟩ := ih env probePid acc
            rw [processRaceBatch_cons_skip_other env probePid pid p ho hc hp] at *
            exact ⟨u, hu, hin, hr1, hr2⟩
    · obtain ⟨u, hu, hin, hr1, hr2⟩ := ih (popKill env) probePid (acc ++ [Action.forward sg])
      rw [processRaceBatch_cons_forward env probePid sg hsg]
      refine ⟨Action.forward sg :: u, by rw [hu]; simp, ?_, ?_, ?_⟩
      · intro a ha
        rw [List.mem_cons] at ha
        rcases ha with rfl | ha
        · exact Or.inl ⟨sg, hsg, rfl⟩
        · exact hin a ha
      · intro hready
        exact List.mem_cons_of_mem _ (hr1 hready)
      · intro hready
        have := hr2 hready
        rw [List.mem_cons]
        rintro (h1 | h1)
        · exact Action.noConfusion h1
        · exact this h1

/-- Race-batch processing never touches the child pid or the child's exit
status, and a `childExited` outcome carries `status.code().unwrap_or(1)`. -/
theorem race_inv (b : List SigEvent) : ∀ env probePid acc,
    (processRaceBatch env probePid b acc).envOf.childPid = env.childPid ∧
    (processRaceBatch env probePid b acc).envOf.childCode = env.childCode ∧
    ∀ code e2 a2, processRaceBatch env probePid b acc = RaceOutcome.childExited code e2 a2 →
      code = env.childCode.getD 1 := by
  induction b with
  | nil => intro env probePid acc; simp [processRaceBatch, RaceOutcome.envOf]
  | cons e rest ih =>
    intro env probePid acc
    rcases e with ⟨sg, pid⟩
    by_cases hsg : sg = Sig.CHLD
    · subst hsg
      rcases ho : originPid ⟨Sig.CHLD, pid⟩ with _ | p
      · rw [processRaceBatch_cons_skip_none env probePid pid ho]
        exact ih env probePid acc
      · by_cases hc : p = env.childPid
        · subst hc
          rw [processRaceBatch_cons_childExit env probePid pid ho]
          refine ⟨?_, ?_, ?_⟩
          · simp [RaceOutcome.envOf, requeue_childPid, popProbe, popKill]
          · simp [RaceOutcome.envOf, requeue_childCode, popProbe, popKill]
          · intro code e2 a2 hr
            cases hr
            rfl
        · by_cases hp : p = probePid
          · subst hp
            have hne : p ≠ env.childPid := hc
            rw [processRaceBatch_cons_probeExit env p pid ho hne]
            by_cases hr : (popProbe env).1 = true
            · rw [if_pos hr]
              refine ⟨by simp [RaceOutcome.envOf, requeue_childPid, popProbe],
                by simp [RaceOutcome.envOf, requeue_childCode, popProbe], ?_⟩
              intro code e2 a2 hcontra
              exact RaceOutcome.noConfusion hcontra
            · rw [if_neg hr]
              refine ⟨by simp [RaceOutcome.envOf, requeue_childPid, popProbe],
                by simp [RaceOutcome.envOf, requeue_childCode, popProbe], ?_⟩
              intro code e2 a2 hcontra
              exact RaceOutcome.noConfusion hcontra
          · rw [processRaceBatch_cons_skip_other env probePid pid p ho hc hp]
            exact ih env probePid acc
    · rw [processRaceBatch_cons_forward env probePid sg hsg]
      simpa [popKill] using ih (popKill env) probePid (acc ++ [Action.forward sg])

/-! ### Unfolding equations for the run-level interpreters -/

/-- Unfolding: the sleep completes and the probe spawn succeeds, entering
the racing phase. -/
theorem runStartup_spawn_ok (fuel : Nat) (t : Nat) (env : Env) (acc : List Action)
    (sl : List (Option Nat)) (pid : Nat) (sp : List (Option Nat))
    (hs : env.sleeps = none :: sl) (hp : env.spawns = some pid :: sp) :
    runStartup (fuel + 1) (Phase.sleeping t) env acc =
      runStartup fuel (Phase.racing pid) { env with sleeps := sl, spawns := sp }
        (acc ++ [Action.sleepFor t, Action.spawnProbe, Action.spawnOk pid]) := by
  simp [runStartup, hs, hp]

/-- Unfolding: the sleep completes but the probe spawn fails:
`continue 'waitLoop`, i.e. back to sleeping with the full fixed delay. -/
theorem runStartup_spawn_fail (fuel : Nat) (t : Nat) (env : Env) (acc : List Action)
    (sl : List (Option Nat)) (sp : List (Option Nat))
    (hs : env.sleeps = none :: sl) (hp : env.spawns = none :: sp) :
    runStartup (fuel + 1) (Phase.sleeping t) env acc =
      runStartup fuel (Phase.sleeping initialDelay) { env with sleeps := sl, spawns := sp }
        (acc ++ [Action.sleepFor t, Action.spawnProbe]) := by
  simp [runStartup, hs, hp]

/-- Unfolding: the sleep is interrupted and the drained pending batch hits
the supervised child's exit. -/
theorem runStartup_sleep_exit (fuel : Nat) (t rem : Nat) (env : Env) (acc : List Action)
    (sl : List (Option Nat)) (hs : env.sleeps = some rem :: sl)
    (code : Int) (e3 : Env) (a3 : List Action)
    (hb : processRelayBatch (popPending { env with sleeps := sl }).2
        (popPending { env with sleeps := sl }).1 (acc ++ [Action.sleepFor t]) =
      RelayOutcome.exited code e3 a3) :
    runStartup (fuel + 1) (Phase.sleeping t) env acc = some (Except.error code, e3, a3) := by
  simp [runStartup, hs, hb]

/-- Unfolding: the sleep is interrupted, the drained pending batch does not
contain the child's exit, and the countdown resumes with the remaining
delay. -/
theorem runStartup_sleep_cont (fuel : Nat) (t rem : Nat) (env : Env) (acc : List Action)
    (sl : List (Option Nat)) (hs : env.sleeps = some rem :: sl)
    (e3 : Env) (a3 : List Action)
    (hb : processRelayBatch (popPending { env with sleeps := sl }).2
        (popPending { env with sleeps := sl }).1 (acc ++ [Action.sleepFor t]) =
      RelayOutcome.cont e3 a3) :
    runStartup (fuel + 1) (Phase.sleeping t) env acc =
      runStartup fuel (Phase.sleeping rem) e3 a3 := by
  simp [runStartup, hs, hb]

/-- Unfolding: while racing, the drained batch hits the child's exit. -/
theorem runStartup_race_childExit (fuel : Nat) (pid : Nat) (env : Env) (acc : List Action)
    (b : List SigEvent) (bs : List (List SigEvent)) (hb : env.batches = b :: bs)
    (code : Int) (e2 : Env) (a2 : List Action)
    (h : processRaceBatch { env with batches := bs } pid b acc =
      RaceOutcome.childExited code e2 a2) :
    runStartup (fuel + 1) (Phase.racing pid) env acc = some (Except.error code, e2, a2) := by
  simp [runStartup, hb, h]

/-- Unfolding: while racing, the probe reports success. -/
theorem runStartup_race_ready (fuel : Nat) (pid : Nat) (env : Env) (acc : List Action)
    (b : List SigEvent) (bs : List (List SigEvent)) (hb : env.batches = b :: bs)
    (e2 : Env) (a2 : List Action)
    (h : processRaceBatch { env with batches := bs } pid b acc = RaceOutcome.ready e2 a2) :
    runStartup (fuel + 1) (Phase.racing pid) env acc = some (Except.ok (), e2, a2) := by
  simp [runStartup, hb, h]

/-- Unfolding: while racing, the probe exits unsuccessfully:
`break 'checkLoop`, back to sleeping with the full fixed delay. -/
theorem runStartup_race_probeFailed (fuel : Nat) (pid : Nat) (env : Env) (acc : List Action)
    (b : List SigEvent) (bs : List (List SigEvent)) (hb : env.batches = b :: bs)
    (e2 : Env) (a2 : List Action)
    (h : processRaceBatch { env with batches := bs } pid b acc = RaceOutcome.probeFailed e2 a2) :
    runStartup (fuel + 1) (Phase.racing pid) env acc =
      runStartup fuel (Phase.sleeping initialDelay) e2 a2 := by
  simp [runStartup, hb, h]

/-- Unfolding: while racing, the drained batch decides nothing and the wait
resumes. -/
theorem runStartup_race_cont (fuel : Nat) (pid : Nat) (env : Env) (acc : List Action)
    (b : List SigEvent) (bs : List (List SigEvent)) (hb : env.batches = b :: bs)
    (e2 : Env) (a2 : List Action)
    (h : processRaceBatch { env with batches := bs } pid b acc = RaceOutcome.cont e2 a2) :
    runStartup (fuel + 1) (Phase.racing pid) env acc =
      runStartup fuel (Phase.racing pid) e2 a2 := by
  simp [runStartup, hb, h]

/-- Unfolding: the steady-state relay hits the child's exit. -/
theorem runSteady_exit (fuel : Nat) (env : Env) (acc : List Action)
    (b : List SigEvent) (bs : List (List SigEvent)) (hb : env.batches = b :: bs)
    (code : Int) (e2 : Env) (a2 : List Action)
    (h : processRelayBatch { env with batches := bs } b acc = RelayOutcome.exited code e2 a2) :
    runSteady (fuel + 1) env acc = some (code, e2, a2) := by
  simp [runSteady, hb, h]

/-- Unfolding: the steady-state relay processes an undecisive batch and
waits again. -/
theorem runSteady_cont (fuel : Nat) (env : Env) (acc : List Action)
    (b : List SigEvent) (bs : List (List SigEvent)) (hb : env.batches = b :: bs)
    (e2 : Env) (a2 : List Action)
    (h : processRelayBatch { env with batches := bs } b acc = RelayOutcome.cont e2 a2) :
    runSteady (fuel + 1) env acc = runSteady fuel e2 a2 := by
  simp [runSteady, hb, h]

theorem popPending_childPid (env : Env) : (popPending env).2.childPid = env.childPid := by
  unfold popPending
  cases env.batches <;> rfl

theorem popPending_childCode (env : Env) : (popPending env).2.childCode = env.childCode := by
  unfold popPending
  cases env.batches <;> rfl

/-- A trace segment made of relay actions contains no notification, no
forwarding of the child-exit kind, and no probe-exit observation. -/
theorem relaySeg_free (u : List Action)
    (h : ∀ a ∈ u, (∃ s, s ≠ Sig.CHLD ∧ a = Action.forward s) ∨ a = Action.reapChild) :
    Action.notifySent ∉ u ∧ Action.forward Sig.CHLD ∉ u ∧
    ∀ flag, Action.probeExited flag ∉ u := by
  refine ⟨?_, ?_, ?_⟩
  · intro hmem
    rcases h _ hmem with ⟨s, _, heq⟩ | heq <;> exact Action.noConfusion heq
  · intro hmem
    rcases h _ hmem with ⟨s, hs, heq⟩ | heq
    · exact hs (Action.forward.inj heq).symm
    · exact Action.noConfusion heq
  · intro flag hmem
    rcases h _ hmem with ⟨s, _, heq⟩ | heq <;> exact Action.noConfusion heq

/-- A trace segment made of racing actions contains no notification and no
forwarding of the child-exit kind. -/
theorem raceSeg_free (probePid : Nat) (u : List Action)
    (h : ∀ a ∈ u, (∃ s, s ≠ Sig.CHLD ∧ a = Action.forward s) ∨ a = Action.reapChild ∨
      a = Action.termProbe probePid ∨ a = Action.reapProbe ∨
      ∃ flag, a = Action.probeExited flag) :
    Action.notifySent ∉ u ∧ Action.forward Sig.CHLD ∉ u := by
  constructor
  · intro hmem
    rcases h _ hmem with ⟨s, _, heq⟩ | heq | heq | heq | ⟨flag, heq⟩ <;>
      exact Action.noConfusion heq
  · intro hmem
    rcases h _ hmem with ⟨s, hs, heq⟩ | heq | heq | heq | ⟨flag, heq⟩
    · exact hs (Action.forward.inj heq).symm
    all_goals exact Action.noConfusion heq

/-- `wait_for_startup` never changes the child pid or the child's status,
and its `Err` exit code is `status.code().unwrap_or(1)`. -/
theorem startup_inv (fuel : Nat) : ∀ (ph : Phase) (env : Env) (acc : List Action)
    (r : Except Int Unit) (e : Env) (t : List Action),
    runStartup fuel ph env acc = some (r, e, t) →
    e.childPid = env.childPid ∧ e.childCode = env.childCode ∧
    ∀ c, r = Except.error c → c = env.childCode.getD 1 := by
  induction fuel with
  | zero =>
    intro ph env acc r e t h
    exact absurd h (by simp [runStartup])
  | succ fuel ih =>
    intro ph env acc r e t h
    cases ph with
    | sleeping st =>
      rcases hs : env.sleeps with _ | ⟨o, sl⟩
      · rw [runStartup, hs] at h
        exact absurd h (by simp)
      · cases o with
        | none =>
          rcases hp : env.spawns with _ | ⟨so, sp⟩
          · rw [runStartup, hs] at h
            simp only [hp] at h
            exact absurd h (by simp)
          · cases so with
            | some pid =>
              rw [runStartup_spawn_ok fuel st env acc sl pid sp hs hp] at h
              simpa using ih _ _ _ _ _ _ h
            | none =>
              rw [runStartup_spawn_fail fuel st env acc sl sp hs hp] at h
              simpa using ih _ _ _ _ _ _ h
        | some rem =>
          rcases hpr : processRelayBatch (popPending { env with sleeps := sl }).2
              (popPending { env with sleeps := sl }).1 (acc ++ [Action.sleepFor st]) with
            ⟨code, e3, a3⟩ | ⟨e3, a3⟩
          · rw [runStartup_sleep_exit fuel st rem env acc sl hs code e3 a3 hpr] at h
            obtain ⟨rfl, rfl, rfl⟩ : r = Except.error code ∧ e = e3 ∧ t = a3 := by
              simpa using h.symm
            have hi := relay_inv (popPending { env with sleeps := sl }).1
              (popPending { env with sleeps := sl }).2 (acc ++ [Action.sleepFor st])
            rw [hpr] at hi
            have hpid : (popPending { env with sleeps := sl }).2.childPid = env.childPid := by
              rw [popPending_childPid]
            have hcode : (popPending { env with sleeps := sl }).2.childCode = env.childCode := by
              rw [popPending_childCode]
            refine ⟨?_, ?_, ?_⟩
            · have := hi.1
              simp only [RelayOutcome.envOf] at this
              rw [this, hpid]
            · have := hi.2.1
              simp only [RelayOutcome.envOf] at this
              rw [this, hcode]
            · intro c hc
              cases hc
              have := hi.2.2 _ _ _ rfl
              rw [this, hcode]
          · rw [runStartup_sleep_cont fuel st rem env acc sl hs e3 a3 hpr] at h
            obtain ⟨h1, h2, h3⟩ := ih _ _ _ _ _ _ h
            have hi := relay_inv (popPending { env with sleeps := sl }).1
              (popPending { env with sleeps := sl }).2 (acc ++ [Action.sleepFor st])
            rw [hpr] at hi
            have h1x : e3.childPid = env.childPid := by
              have := hi.1
              simp only [RelayOutcome.envOf] at this
              rw [this, popPending_childPid]
            have h2x : e3.childCode = env.childCode := by
              have := hi.2.1
              simp only [RelayOutcome.envOf] at this
              rw [this, popPending_childCode]
            exact ⟨by rw [h1, h1x], by rw [h2, h2x], fun c hc => by
              rw [h3 c hc, h2x]⟩
    | racing pid =>
      rcases hb : env.batches with _ | ⟨b, bs⟩
      · rw [runStartup, hb] at h
        exact absurd h (by simp)
      · have hi := race_inv b { env with batches := bs } pid acc
        rcases hpr : processRaceBatch { env with batches := bs } pid b acc with
          ⟨code, e2, a2⟩ | ⟨e2, a2⟩ | ⟨e2, a2⟩ | ⟨e2, a2⟩
        · rw [runStartup_race_childExit fuel pid env acc b bs hb code e2 a2 hpr] at h
          obtain ⟨rfl, rfl, rfl⟩ : r = Except.error code ∧ e = e2 ∧ t = a2 := by
            simpa using h.symm
          rw [hpr] at hi
          simp only [RaceOutcome.envOf] at hi
          refine ⟨hi.1, hi.2.1, ?_⟩
          intro c hc
          cases hc
          exact hi.2.2 _ _ _ rfl
        · rw [runStartup_race_ready fuel pid env acc b bs hb e2 a2 hpr] at h
          obtain ⟨rfl, rfl, rfl⟩ : r = Except.ok () ∧ e = e2 ∧ t = a2 := by
            simpa using h.symm
          rw [hpr] at hi
          simp only [RaceOutcome.envOf] at hi
          exact ⟨hi.1, hi.2.1, fun c hc => Except.noConfusion hc⟩
        · rw [runStartup_race_probeFailed fuel pid env acc b bs hb e2 a2 hpr] at h
          obtain ⟨h1, h2, h3⟩ := ih _ _ _ _ _ _ h
          rw [hpr] at hi
          simp only [RaceOutcome.envOf] at hi
          exact ⟨by rw [h1, hi.1], by rw [h2, hi.2.1], fun c hc => by
            rw [h3 c hc, hi.2.1]⟩
        · rw [runStartup_race_cont fuel pid env acc b bs hb e2 a2 hpr] at h
          obtain ⟨h1, h2, h3⟩ := ih _ _ _ _ _ _ h
          rw [hpr] at hi
          simp only [RaceOutcome.envOf] at hi
          exact ⟨by rw [h1, hi.1], by rw [h2, hi.2.1], fun c hc => by
            rw [h3 c hc, hi.2.1]⟩

theorem not_mem_append_of {α : Type} {x : α} {l1 l2 : List α}
    (h1 : x ∉ l1) (h2 : x ∉ l2) : x ∉ l1 ++ l2 :=
  fun h => (List.mem_append.mp h).elim h1 h2

/-- The trace `wait_for_startup` appends to its accumulator never contains
a readiness notification nor a forwarding of the child-exit kind, and it
contains a successful probe-exit observation exactly when the phase ends
in `Ready` (`Ok`). -/
theorem startup_emits (fuel : Nat) : ∀ (ph : Phase) (env : Env) (acc : List Action)
    (r : Except Int Unit) (e : Env) (t : List Action),
    runStartup fuel ph env acc = some (r, e, t) → ∃ u, t = acc ++ u ∧
    Action.notifySent ∉ u ∧ Action.forward Sig.CHLD ∉ u ∧
    (r = Except.ok () → Action.probeExited true ∈ u) ∧
    (r ≠ Except.ok () → Action.probeExited true ∉ u) := by
  induction fuel with
  | zero =>
    intro ph env acc r e t h
    exact absurd h (by simp [runStartup])
  | succ fuel ih =>
    intro ph env acc r e t h
    cases ph with
    | sleeping st =>
      rcases hs : env.sleeps with _ | ⟨o, sl⟩
      · rw [runStartup, hs] at h
        exact absurd h (by simp)
      · cases o with
        | none =>
          rcases hp : env.spawns with _ | ⟨so, sp⟩
          · rw [runStartup, hs] at h
            simp only [hp] at h
            exact absurd h (by simp)
          · cases so with
            | some pid =>
              rw [runStartup_spawn_ok fuel st env acc sl pid sp hs hp] at h
              obtain ⟨u', hu', hn', hf', hok', hnok'⟩ := ih _ _ _ _ _ _ h
              refine ⟨[Action.sleepFor st, Action.spawnProbe, Action.spawnOk pid] ++ u',
                by rw [hu']; simp, not_mem_append_of (by simp) hn',
                not_mem_append_of (by simp) hf', ?_, ?_⟩
              · intro hok
                exact List.mem_append_right _ (hok' hok)
              · intro hne
                exact not_mem_append_of (by simp) (hnok' hne)
            | none =>
              rw [runStartup_spawn_fail fuel st env acc sl sp hs hp] at h
              obtain ⟨u', hu', hn', hf', hok', hnok'⟩ := ih _ _ _ _ _ _ h
              refine ⟨[Action.sleepFor st, Action.spawnProbe] ++ u',
                by rw [hu']; simp, not_mem_append_of (by simp) hn',
                not_mem_append_of (by simp) hf', ?_, ?_⟩
              · intro hok
                exact List.mem_append_right _ (hok' hok)
              · intro hne
                exact not_mem_append_of (by simp) (hnok' hne)
        | some rem =>
          obtain ⟨u0, hu0, hprop⟩ := relay_emits (popPending { env with sleeps := sl }).1
            (popPending { env with sleeps := sl }).2 (acc ++ [Action.sleepFor st])
          obtain ⟨hn0, hf0, hpe0⟩ := relaySeg_free u0 hprop
          rcases hpr : processRelayBatch (popPending { env with sleeps := sl }).2
              (popPending { env with sleeps := sl }).1 (acc ++ [Action.sleepFor st]) with
            ⟨code, e3, a3⟩ | ⟨e3, a3⟩
          · rw [runStartup_sleep_exit fuel st rem env acc sl hs code e3 a3 hpr] at h
            obtain ⟨rfl, rfl, rfl⟩ : r = Except.error code ∧ e = e3 ∧ t = a3 := by
              simpa using h.symm
            rw [hpr] at hu0
            simp only [RelayOutcome.accOf] at hu0
            refine ⟨[Action.sleepFor st] ++ u0, by rw [hu0]; simp,
              not_mem_append_of (by simp) hn0, not_mem_append_of (by simp) hf0, ?_, ?_⟩
            · intro hok
              exact Except.noConfusion hok
            · intro _
              exact not_mem_append_of (by simp) (hpe0 true)
          · rw [runStartup_sleep_cont fuel st rem env acc sl hs e3 a3 hpr] at h
            obtain ⟨u', hu', hn', hf', hok', hnok'⟩ := ih _ _ _ _ _ _ h
            rw [hpr] at hu0
            simp only [RelayOutcome.accOf] at hu0
            refine ⟨[Action.sleepFor st] ++ u0 ++ u', by rw [hu', hu0]; simp, ?_, ?_, ?_, ?_⟩
            · exact not_mem_append_of (not_mem_append_of (by simp) hn0) hn'
            · exact not_mem_append_of (not_mem_append_of (by simp) hf0) hf'
            · intro hok
              exact List.mem_append_right _ (hok' hok)
            · intro hne
              exact not_mem_append_of (not_mem_append_of (by simp) (hpe0 true)) (hnok' hne)
    | racing pid =>
      rcases hb : env.batches with _ | ⟨b, bs⟩
      · rw [runStartup, hb] at h
        exact absurd h (by simp)
      · obtain ⟨u0, hu0, hprop, hr1, hr2⟩ := race_emits b { env with batches := bs } pid acc
        obtain ⟨hn0, hf0⟩ := raceSeg_free pid u0 hprop
        rcases hpr : processRaceBatch { env with batches := bs } pid b acc with
          ⟨code, e2, a2⟩ | ⟨e2, a2⟩ | ⟨e2, a2⟩ | ⟨e2, a2⟩
        · rw [runStartup_race_childExit fuel pid env acc b bs hb code e2 a2 hpr] at h
          obtain ⟨rfl, rfl, rfl⟩ : r = Except.error code ∧ e = e2 ∧ t = a2 := by
            simpa using h.symm
          rw [hpr] at hu0
          simp only [RaceOutcome.accOf] at hu0
          refine ⟨u0, hu0, hn0, hf0, ?_, ?_⟩
          · intro hok
            exact Except.noConfusion hok
          · intro _
            refine hr2 ?_
            rintro ⟨e', a', habs⟩
            rw [hpr] at habs
            exact RaceOutcome.noConfusion habs
        · rw [runStartup_race_ready fuel pid env acc b bs hb e2 a2 hpr] at h
          obtain ⟨rfl, rfl, rfl⟩ : r = Except.ok () ∧ e = e2 ∧ t = a2 := by
            simpa using h.symm
          rw [hpr] at hu0
          simp only [RaceOutcome.accOf] at hu0
          refine ⟨u0, hu0, hn0, hf0, ?_, ?_⟩
          · intro _
            exact hr1 ⟨_, _, hpr⟩
          · intro hne
            exact absurd rfl hne
        · rw [runStartup_race_probeFailed fuel pid env acc b bs hb e2 a2 hpr] at h
          obtain ⟨u', hu', hn', hf', hok', hnok'⟩ := ih _ _ _ _ _ _ h
          rw [hpr] at hu0
          simp only [RaceOutcome.accOf] at hu0
          have hpe0 : Action.probeExited true ∉ u0 := by
            refine hr2 ?_
            rintro ⟨e', a', habs⟩
            rw [hpr] at habs
            exact RaceOutcome.noConfusion habs
          refine ⟨u0 ++ u', by rw [hu', hu0]; simp, not_mem_append_of hn0 hn',
            not_mem_append_of hf0 hf', ?_, ?_⟩
          · intro hok
            exact List.mem_append_right _ (hok' hok)
          · intro hne
            exact not_mem_append_of hpe0 (hnok' hne)
        · rw [runStartup_race_cont fuel pid env acc b bs hb e2 a2 hpr] at h
          obtain ⟨u', hu', hn', hf', hok', hnok'⟩ := ih _ _ _ _ _ _ h
          rw [hpr] at hu0
          simp only [RaceOutcome.accOf] at hu0
          have hpe0 : Action.probeExited true ∉ u0 := by
            refine hr2 ?_
            rintro ⟨e', a', habs⟩
            rw [hpr] at habs
            exact RaceOutcome.noConfusion habs
          refine ⟨u0 ++ u', by rw [hu', hu0]; simp, not_mem_append_of hn0 hn',
            not_mem_append_of hf0 hf', ?_, ?_⟩
          · intro hok
            exact List.mem_append_right _ (hok' hok)
          · intro hne
            exact not_mem_append_of hpe0 (hnok' hne)

/-- `propagate_signals` never changes the child pid or the child's status,
and returns `status.code().unwrap_or(1)`. -/
theorem steady_inv (fuel : Nat) : ∀ (env : Env) (acc : List Action)
    (code : Int) (e : Env) (t : List Action),
    runSteady fuel env acc = some (code, e, t) →
    e.childPid = env.childPid ∧ e.childCode = env.childCode ∧
    code = env.childCode.getD 1 := by
  induction fuel with
  | zero =>
    intro env acc code e t h
    exact absurd h (by simp [runSteady])
  | succ fuel ih =>
    intro env acc code e t h
    rcases hb : env.batches with _ | ⟨b, bs⟩
    · rw [runSteady, hb] at h
      exact absurd h (by simp)
    · have hi := relay_inv b { env with batches := bs } acc
      rcases hpr : processRelayBatch { env with batches := bs } b acc with
        ⟨c3, e3, a3⟩ | ⟨e3, a3⟩
      · rw [runSteady_exit fuel env acc b bs hb c3 e3 a3 hpr] at h
        obtain ⟨rfl, rfl, rfl⟩ : code = c3 ∧ e = e3 ∧ t = a3 := by
          simpa using h.symm
        rw [hpr] at hi
        simp only [RelayOutcome.envOf] at hi
        exact ⟨hi.1, hi.2.1, hi.2.2 _ _ _ rfl⟩
      · rw [runSteady_cont fuel env acc b bs hb e3 a3 hpr] at h
        obtain ⟨h1, h2, h3⟩ := ih _ _ _ _ _ h
        rw [hpr] at hi
        simp only [RelayOutcome.envOf] at hi
        exact ⟨by rw [h1, hi.1], by rw [h2, hi.2.1], by rw [h3, hi.2.1]⟩

/-- The trace `propagate_signals` appends to its accumulator contains no
readiness notification, no forwarding of the child-exit kind, and no
probe-exit observation. -/
theorem steady_emits (fuel : Nat) : ∀ (env : Env) (acc : List Action)
    (code : Int) (e : Env) (t : List Action),
    runSteady fuel env acc = some (code, e, t) → ∃ u, t = acc ++ u ∧
    Action.notifySent ∉ u ∧ Action.forward Sig.CHLD ∉ u ∧
    ∀ flag, Action.probeExited flag ∉ u := by
  induction fuel with
  | zero =>
    intro env acc code e t h
    exact absurd h (by simp [runSteady])
  | succ fuel ih =>
    intro env acc code e t h
    rcases hb : env.batches with _ | ⟨b, bs⟩
    · rw [runSteady, hb] at h
      exact absurd h (by simp)
    · obtain ⟨u0, hu0, hprop⟩ := relay_emits b { env with batches := bs } acc
      obtain ⟨hn0, hf0, hpe0⟩ := relaySeg_free u0 hprop
      rcases hpr : processRelayBatch { env with batches := bs } b acc with
        ⟨c3, e3, a3⟩ | ⟨e3, a3⟩
      · rw [runSteady_exit fuel env acc b bs hb c3 e3 a3 hpr] at h
        obtain ⟨rfl, rfl, rfl⟩ : code = c3 ∧ e = e3 ∧ t = a3 := by
          simpa using h.symm
        rw [hpr] at hu0
        simp only [RelayOutcome.accOf] at hu0
        exact ⟨u0, hu0, hn0, hf0, hpe0⟩
      · rw [runSteady_cont fuel env acc b bs hb e3 a3 hpr] at h
        obtain ⟨u', hu', hn', hf', hpe'⟩ := ih _ _ _ _ _ h
        rw [hpr] at hu0
        simp only [RelayOutcome.accOf] at hu0
        refine ⟨u0 ++ u', by rw [hu', hu0]; simp, not_mem_append_of hn0 hn',
          not_mem_append_of hf0 hf', ?_⟩
        intro flag
        exact not_mem_append_of (hpe0 flag) (hpe' flag)

/-- The overall process exit code is always the supervised child's
`status.code().unwrap_or(1)`, in both the startup-failure path and the
steady-state path. -/
theorem main_exit (nc : Bool) (env : Env) (fuel : Nat) (code : Int) (e : Env)
    (t : List Action) (h : mainRun nc env fuel = some (code, e, t)) :
    code = env.childCode.getD 1 := by
  unfold mainRun at h
  rcases hst : runStartup fuel (Phase.sleeping initialDelay) env [] with _ | ⟨r, e1, t1⟩
  · rw [hst] at h
    exact absurd h (by simp)
  · rw [hst] at h
    rcases r with c | u
    · simp only at h
      obtain ⟨rfl, rfl, rfl⟩ : code = c ∧ e = e1 ∧ t = t1 := by
        simpa using h.symm
      exact (startup_inv fuel _ _ _ _ _ _ hst).2.2 _ rfl
    · simp only at h
      have hsi := startup_inv fuel _ _ _ _ _ _ hst
      have := (steady_inv fuel _ _ _ _ _ h).2.2
      rw [this, hsi.2.1]

theorem countA_append (x : Action) (l1 l2 : List Action) :
    countA x (l1 ++ l2) = countA x l1 + countA x l2 := by
  induction l1 with
  | nil => simp [countA]
  | cons a rest ih => simp [countA, ih]; omega

theorem countA_eq_zero (x : Action) (l : List Action) (h : x ∉ l) :
    countA x l = 0 := by
  induction l with
  | nil => rfl
  | cons a rest ih =>
    rw [List.mem_cons, not_or] at h
    have hne : ¬ a = x := fun heq => h.1 heq.symm
    simp only [countA, if_neg hne, ih h.2]

theorem countSig_requeue (s : Sig) (env : Env) (rest : List SigEvent) :
    countSig s (requeue env rest).batches =
      countSigList s rest + countSig s env.batches := by
  cases rest <;> simp [requeue, countSig, countSigList]

theorem countSig_popPending (s : Sig) (env : Env) :
    countSigList s (popPending env).1 + countSig s (popPending env).2.batches =
      countSig s env.batches := by
  unfold popPending
  rcases hb : env.batches with _ | ⟨b, bs⟩ <;> simp [countSigList, countSig, hb]

/-- Conservation of non-`SIGCHLD` deliveries over one relay batch: each is
either forwarded (appearing in the trace once) or still pending. -/
theorem relay_count (s : Sig) (hs : s ≠ Sig.CHLD) (b : List SigEvent) : ∀ env acc,
    countA (Action.forward s) ((processRelayBatch env b acc).accOf) +
      countSig s ((processRelayBatch env b acc).envOf).batches =
    countA (Action.forward s) acc + countSigList s b + countSig s env.batches := by
  induction b with
  | nil =>
    intro env acc
    simp [processRelayBatch, RelayOutcome.accOf, RelayOutcome.envOf, countSigList]
  | cons e rest ih =>
    intro env acc
    rcases e with ⟨sg, pid⟩
    by_cases hsg : sg = Sig.CHLD
    · subst hsg
      have hzero : (if (⟨Sig.CHLD, pid⟩ : SigEvent).signal = s then 1 else 0) = 0 :=
        if_neg (fun heq => hs heq.symm)
      by_cases h : originPid ⟨Sig.CHLD, pid⟩ = some env.childPid
      · rw [processRelayBatch_cons_exit env pid h]
        simp only [RelayOutcome.accOf, RelayOutcome.envOf, countA_append,
          countSig_requeue, countSigList, hzero]
        have : countA (Action.forward s) [Action.reapChild] = 0 :=
          countA_eq_zero _ _ (by simp)
        rw [this]
        omega
      · rw [processRelayBatch_cons_skip env pid h]
        rw [ih env acc]
        simp only [countSigList, hzero]
        omega
    · rw [processRelayBatch_cons_forward env sg hsg]
      rw [ih (popKill env) (acc ++ [Action.forward sg])]
      have hpk : (popKill env).batches = env.batches := rfl
      rw [hpk, countA_append]
      simp only [countSigList, countA]
      by_cases heq : sg = s
      · subst heq
        simp
        omega
      · have h1 : ¬ Action.forward sg = Action.forward s := by
          intro hcon
          exact heq (Action.forward.inj hcon)
        simp [h1, heq]

/-- Conservation of non-`SIGCHLD` deliveries over one racing batch. -/
theorem race_count (s : Sig) (hs : s ≠ Sig.CHLD) (b : List SigEvent) : ∀ env probePid acc,
    countA (Action.forward s) ((processRaceBatch env probePid b acc).accOf) +
      countSig s ((processRaceBatch env probePid b acc).envOf).batches =
    countA (Action.forward s) acc + countSigList s b + countSig s env.batches := by
  induction b with
  | nil =>
    intro env probePid acc
    simp [processRaceBatch, RaceOutcome.accOf, RaceOutcome.envOf, countSigList]
  | cons e rest ih =>
    intro env probePid acc
    rcases e with ⟨sg, pid⟩
    by_cases hsg : sg = Sig.CHLD
    · subst hsg
      have hzero : (if (⟨Sig.CHLD, pid⟩ : SigEvent).signal = s then 1 else 0) = 0 :=
        if_neg (fun heq => hs heq.symm)
      rcases ho : originPid ⟨Sig.CHLD, pid⟩ with _ | p
      · rw [processRaceBatch_cons_skip_none env probePid pid ho]
        rw [ih env probePid acc]
        simp only [countSigList, hzero]
        omega
      · by_cases hc : p = env.childPid
        · subst hc
          rw [processRaceBatch_cons_childExit env probePid pid ho]
          simp only [RaceOutcome.accOf, RaceOutcome.envOf, countA_append,
            countSig_requeue, countSigList, hzero]
          have hb2 : (popProbe (popKill env)).2.batches = env.batches := rfl
          rw [hb2]
          have : countA (Action.forward s)
              [Action.reapChild, Action.termProbe probePid, Action.reapProbe] = 0 :=
            countA_eq_zero _ _ (by simp)
          rw [this]
          omega
        · by_cases hp : p = probePid
          · subst hp
            have hne : p ≠ env.childPid := hc
            rw [processRaceBatch_cons_probeExit env p pid ho hne]
            have hb2 : (popProbe env).2.batches = env.batches := rfl
            by_cases hr : (popProbe env).1 = true
            · rw [if_pos hr]
              simp only [RaceOutcome.accOf, RaceOutcome.envOf, countA_append,
                countSig_requeue, countSigList, hzero, hb2]
              have : countA (Action.forward s) [Action.probeExited true] = 0 :=
                countA_eq_zero _ _ (by simp)
              rw [this]
              omega
            · rw [if_neg hr]
              simp only [RaceOutcome.accOf, RaceOutcome.envOf, countA_append,
                countSig_requeue, countSigList, hzero, hb2]
              have : countA (Action.forward s) [Action.probeExited false] = 0 :=
                countA_eq_zero _ _ (by simp)
              rw [this]
              omega
          · rw [processRaceBatch_cons_skip_other env probePid pid p ho hc hp]
            rw [ih env probePid acc]
            simp only [countSigList, hzero]
            omega
    · rw [processRaceBatch_cons_forward env probePid sg hsg]
      rw [ih (popKill env) probePid (acc ++ [Action.forward sg])]
      have hpk : (popKill env).batches = env.batches := rfl
      rw [hpk, countA_append]
      simp only [countSigList, countA]
      by_cases heq : sg = s
      · subst heq
        simp
        omega
      · have h1 : ¬ Action.forward sg = Action.forward s := by
          intro hcon
          exact heq (Action.forward.inj hcon)
        simp [h1, heq]

/-- Conservation of non-`SIGCHLD` deliveries over `wait_for_startup`:
every drained one is forwarded exactly once, the rest are still pending. -/
theorem startup_count (s : Sig) (hs : s ≠ Sig.CHLD) (fuel : Nat) :
    ∀ (ph : Phase) (env : Env) (acc : List Action)
    (r : Except Int Unit) (e : Env) (t : List Action),
    runStartup fuel ph env acc = some (r, e, t) →
    countA (Action.forward s) t + countSig s e.batches =
      countA (Action.forward s) acc + countSig s env.batches := by
  induction fuel with
  | zero =>
    intro ph env acc r e t h
    exact absurd h (by simp [runStartup])
  | succ fuel ih =>
    intro ph env acc r e t h
    cases ph with
    | sleeping st =>
      rcases hs2 : env.sleeps with _ | ⟨o, sl⟩
      · rw [runStartup, hs2] at h
        exact absurd h (by simp)
      · cases o with
        | none =>
          rcases hp : env.spawns with _ | ⟨so, sp⟩
          · rw [runStartup, hs2] at h
            simp only [hp] at h
            exact absurd h (by simp)
          · cases so with
            | some pid =>
              rw [runStartup_spawn_ok fuel st env acc sl pid sp hs2 hp] at h
              have hrec := ih _ _ _ _ _ _ h
              rw [countA_append, countA_eq_zero (Action.forward s)
                [Action.sleepFor st, Action.spawnProbe, Action.spawnOk pid] (by simp)] at hrec
              simpa using hrec
            | none =>
              rw [runStartup_spawn_fail fuel st env acc sl sp hs2 hp] at h
              have hrec := ih _ _ _ _ _ _ h
              rw [countA_append, countA_eq_zero (Action.forward s)
                [Action.sleepFor st, Action.spawnProbe] (by simp)] at hrec
              simpa using hrec
        | some rem =>
          have hc := relay_count s hs (popPending { env with sleeps := sl }).1
            (popPending { env with sleeps := sl }).2 (acc ++ [Action.sleepFor st])
          have hpp := countSig_popPending s { env with sleeps := sl }
          have hb1 : ({ env with sleeps := sl } : Env).batches = env.batches := rfl
          rw [hb1] at hpp
          rcases hpr : processRelayBatch (popPending { env with sleeps := sl }).2
              (popPending { env with sleeps := sl }).1 (acc ++ [Action.sleepFor st]) with
            ⟨code, e3, a3⟩ | ⟨e3, a3⟩
          · rw [runStartup_sleep_exit fuel st rem env acc sl hs2 code e3 a3 hpr] at h
            obtain ⟨rfl, rfl, rfl⟩ : r = Except.error code ∧ e = e3 ∧ t = a3 := by
              simpa using h.symm
            rw [hpr] at hc
            simp only [RelayOutcome.accOf, RelayOutcome.envOf] at hc
            rw [countA_append, countA_eq_zero (Action.forward s)
              [Action.sleepFor st] (by simp)] at hc
            omega
          · rw [runStartup_sleep_cont fuel st rem env acc sl hs2 e3 a3 hpr] at h
            have hrec := ih _ _ _ _ _ _ h
            rw [hpr] at hc
            simp only [RelayOutcome.accOf, RelayOutcome.envOf] at hc
            rw [countA_append, countA_eq_zero (Action.forward s)
              [Action.sleepFor st] (by simp)] at hc
            omega
    | racing pid =>
      rcases hb : env.batches with _ | ⟨b, bs⟩
      · rw [runStartup, hb] at h
        exact absurd h (by simp)
      · have hc := race_count s hs b { env with batches := bs } pid acc
        have hred : countSig s ({ env with batches := bs } : Env).batches = countSig s bs := rfl
        rw [hred] at hc
        have hcons : countSig s (b :: bs) = countSigList s b + countSig s bs := rfl
        have henv : countSig s env.batches = countSig s (b :: bs) := by rw [hb]
        rcases hpr : processRaceBatch { env with batches := bs } pid b acc with
          ⟨code, e2, a2⟩ | ⟨e2, a2⟩ | ⟨e2, a2⟩ | ⟨e2, a2⟩
        · rw [runStartup_race_childExit fuel pid env acc b bs hb code e2 a2 hpr] at h
          obtain ⟨rfl, rfl, rfl⟩ : r = Except.error code ∧ e = e2 ∧ t = a2 := by
            simpa using h.symm
          rw [hpr] at hc
          simp only [RaceOutcome.accOf, RaceOutcome.envOf] at hc
          omega
        · rw [runStartup_race_ready fuel pid env acc b bs hb e2 a2 hpr] at h
          obtain ⟨rfl, rfl, rfl⟩ : r = Except.ok () ∧ e = e2 ∧ t = a2 := by
            simpa using h.symm
          rw [hpr] at hc
          simp only [RaceOutcome.accOf, RaceOutcome.envOf] at hc
          omega
        · rw [runStartup_race_probeFailed fuel pid env acc b bs hb e2 a2 hpr] at h
          have hrec := ih _ _ _ _ _ _ h
          rw [hpr] at hc
          simp only [RaceOutcome.accOf, RaceOutcome.envOf] at hc
          omega
        · rw [runStartup_race_cont fuel pid env acc b bs hb e2 a2 hpr] at h
          have hrec := ih _ _ _ _ _ _ h
          rw [hpr] at hc
          simp only [RaceOutcome.accOf, RaceOutcome.envOf] at hc
          omega

/-- Conservation of non-`SIGCHLD` deliveries over `propagate_signals`. -/
theorem steady_count (s : Sig) (hs : s ≠ Sig.CHLD) (fuel : Nat) :
    ∀ (env : Env) (acc : List Action) (code : Int) (e : Env) (t : List Action),
    runSteady fuel env acc = some (code, e, t) →
    countA (Action.forward s) t + countSig s e.batches =
      countA (Action.forward s) acc + countSig s env.batches := by
  induction fuel with
  | zero =>
    intro env acc code e t h
    exact absurd h (by simp [runSteady])
  | succ fuel ih =>
    intro env acc code e t h
    rcases hb : env.batches with _ | ⟨b, bs⟩
    · rw [runSteady, hb] at h
      exact absurd h (by simp)
    · have hc := relay_count s hs b { env with batches := bs } acc
      have hred : countSig s ({ env with batches := bs } : Env).batches = countSig s bs := rfl
      rw [hred] at hc
      have hcons : countSig s (b :: bs) = countSigList s b + countSig s bs := rfl
      have henv : countSig s env.batches = countSig s (b :: bs) := by rw [hb]
      rcases hpr : processRelayBatch { env with batches := bs } b acc with
        ⟨c3, e3, a3⟩ | ⟨e3, a3⟩
      · rw [runSteady_exit fuel env acc b bs hb c3 e3 a3 hpr] at h
        obtain ⟨rfl, rfl, rfl⟩ : code = c3 ∧ e = e3 ∧ t = a3 := by
          simpa using h.symm
        rw [hpr] at hc
        simp only [RelayOutcome.accOf, RelayOutcome.envOf] at hc
        omega
      · rw [runSteady_cont fuel env acc b bs hb e3 a3 hpr] at h
        have hrec := ih _ _ _ _ _ h
        rw [hpr] at hc
        simp only [RelayOutcome.accOf, RelayOutcome.envOf] at hc
        omega

/-- Conservation of non-`SIGCHLD` deliveries over the whole supervised
run: each delivered one is forwarded exactly once or still pending when
the supervisor exits. -/
theorem main_count (s : Sig) (hs : s ≠ Sig.CHLD) (nc : Bool) (env : Env) (fuel : Nat)
    (code : Int) (e : Env) (t : List Action) (h : mainRun nc env fuel = some (code, e, t)) :
    countA (Action.forward s) t + countSig s e.batches = countSig s env.batches := by
  unfold mainRun at h
  rcases hst : runStartup fuel (Phase.sleeping initialDelay) env [] with _ | ⟨r, e1, t1⟩
  · rw [hst] at h
    exact absurd h (by simp)
  · rw [hst] at h
    have hsc := startup_count s hs fuel _ _ _ _ _ _ hst
    rw [countA_eq_zero (Action.forward s) [] (List.not_mem_nil _)] at hsc
    rcases r with c | u
    · simp only at h
      obtain ⟨rfl, rfl, rfl⟩ : code = c ∧ e = e1 ∧ t = t1 := by
        simpa using h.symm
      omega
    · simp only at h
      have hstc := steady_count s hs fuel _ _ _ _ _ h
      have hacc : countA (Action.forward s)
          (if nc then t1 ++ [Action.notifySent] else t1) = countA (Action.forward s) t1 := by
        cases nc
        · rfl
        · simp only [if_pos]
          rw [countA_append, countA_eq_zero (Action.forward s) [Action.notifySent] (by simp)]
          omega
      rw [hacc] at hstc
      omega

/-! ### Independence from the (discarded) kill results -/

theorem requeue_setKills (env : Env) (ks : List Bool) (rest : List SigEvent) :
    requeue (env.setKills ks) rest = (requeue env rest).setKills ks := by
  cases rest <;> rfl

theorem popKill_setKills (env : Env) (ks : List Bool) :
    popKill (env.setKills ks) = (popKill env).setKills ks.tail := by
  rfl

theorem popProbe_setKills (env : Env) (ks : List Bool) :
    popProbe (env.setKills ks) = ((popProbe env).1, (popProbe env).2.setKills ks) := by
  rfl

theorem popPending_setKills (env : Env) (ks : List Bool) :
    popPending (env.setKills ks) = ((popPending env).1, (popPending env).2.setKills ks) := by
  rcases env with ⟨cp, sls, sps, bts, cc, pr, kl⟩
  cases bts <;> rfl

/-- The relay-batch processor never reads the kill results: replacing that
oracle only changes the leftover kill oracle in the outcome. -/
theorem relay_kills (b : List SigEvent) : ∀ (env : Env) (ks : List Bool) (acc : List Action),
    ∃ ks2, processRelayBatch (env.setKills ks) b acc =
      RelayOutcome.setKills ks2 (processRelayBatch env b acc) := by
  induction b with
  | nil =>
    intro env ks acc
    exact ⟨ks, rfl⟩
  | cons e rest ih =>
    intro env ks acc
    rcases e with ⟨sg, pid⟩
    by_cases hsg : sg = Sig.CHLD
    · subst hsg
      by_cases h : originPid ⟨Sig.CHLD, pid⟩ = some env.childPid
      · have h2 : originPid ⟨Sig.CHLD, pid⟩ = some (env.setKills ks).childPid := h
        rw [processRelayBatch_cons_exit (env.setKills ks) pid h2,
          processRelayBatch_cons_exit env pid h]
        refine ⟨ks, ?_⟩
        rw [RelayOutcome.setKills, requeue_setKills]
        rfl
      · have h2 : ¬ originPid ⟨Sig.CHLD, pid⟩ = some (env.setKills ks).childPid := h
        rw [processRelayBatch_cons_skip (env.setKills ks) pid h2,
          processRelayBatch_cons_skip env pid h]
        exact ih env ks acc
    · rw [processRelayBatch_cons_forward (env.setKills ks) sg hsg,
        processRelayBatch_cons_forward env sg hsg, popKill_setKills]
      exact ih (popKill env) ks.tail (acc ++ [Action.forward sg])

/-- The race-batch processor never reads the kill results. -/
theorem race_kills (b : List SigEvent) :
    ∀ (env : Env) (probePid : Nat) (ks : List Bool) (acc : List Action),
    ∃ ks2, processRaceBatch (env.setKills ks) probePid b acc =
      RaceOutcome.setKills ks2 (processRaceBatch env probePid b acc) := by
  induction b with
  | nil =>
    intro env probePid ks acc
    exact ⟨ks, rfl⟩
  | cons e rest ih =>
    intro env probePid ks acc
    rcases e with ⟨sg, pid⟩
    by_cases hsg : sg = Sig.CHLD
    · subst hsg
      rcases ho : originPid ⟨Sig.CHLD, pid⟩ with _ | p
      · rw [processRaceBatch_cons_skip_none (env.setKills ks) probePid pid ho,
          processRaceBatch_cons_skip_none env probePid pid ho]
        exact ih env probePid ks acc
      · by_cases hc : p = env.childPid
        · subst hc
          have ho2 : originPid ⟨Sig.CHLD, pid⟩ = some (env.setKills ks).childPid := ho
          rw [processRaceBatch_cons_childExit (env.setKills ks) probePid pid ho2,
            processRaceBatch_cons_childExit env probePid pid ho]
          refine ⟨ks.tail, ?_⟩
          rw [RaceOutcome.setKills]
          have hstep : (popProbe (popKill (env.setKills ks))).2 =
              ((popProbe (popKill env)).2).setKills ks.tail := rfl
          rw [hstep, requeue_setKills]
          rfl
        · by_cases hp : p = probePid
          · subst hp
            have hne : p ≠ env.childPid := hc
            have hne2 : p ≠ (env.setKills ks).childPid := hc
            rw [processRaceBatch_cons_probeExit (env.setKills ks) p pid ho hne2,
              processRaceBatch_cons_probeExit env p pid ho hne]
            have h1 : (popProbe (env.setKills ks)).1 = (popProbe env).1 := rfl
            have h2 : (popProbe (env.setKills ks)).2 = ((popProbe env).2).setKills ks := rfl
            rw [h1, h2]
            refine ⟨ks, ?_⟩
            by_cases hr : (popProbe env).1 = true
            · rw [if_pos hr, if_pos hr, RaceOutcome.setKills, requeue_setKills]
            · rw [if_neg hr, if_neg hr, RaceOutcome.setKills, requeue_setKills]
          · rw [processRaceBatch_cons_skip_other (env.setKills ks) probePid pid p ho hc hp,
              processRaceBatch_cons_skip_other env probePid pid p ho hc hp]
            exact ih env probePid ks acc
    · rw [processRaceBatch_cons_forward (env.setKills ks) probePid sg hsg,
        processRaceBatch_cons_forward env probePid sg hsg, popKill_setKills]
      exact ih (popKill env) probePid ks.tail (acc ++ [Action.forward sg])

/-- `wait_for_startup` never reads the kill results: its result, trace and
final oracle (up to the leftover kill oracle) are unchanged when the
kill-result oracle is replaced. -/
theorem startup_kills (fuel : Nat) :
    ∀ (ph : Phase) (env : Env) (ks : List Bool) (acc : List Action),
    ∃ ks2, runStartup fuel ph (env.setKills ks) acc =
      (runStartup fuel ph env acc).map (fun x => (x.1, x.2.1.setKills ks2, x.2.2)) := by
  induction fuel with
  | zero =>
    intro ph env ks acc
    exact ⟨ks, rfl⟩
  | succ fuel ih =>
    intro ph env ks acc
    cases ph with
    | sleeping st =>
      rcases hs : env.sleeps with _ | ⟨o, sl⟩
      · have hs2 : (env.setKills ks).sleeps = [] := hs
        refine ⟨ks, ?_⟩
        rw [runStartup, hs2, runStartup, hs]
        rfl
      · cases o with
        | none =>
          rcases hp : env.spawns with _ | ⟨so, sp⟩
          · have hs2 : (env.setKills ks).sleeps = none :: sl := hs
            have hp2 : (env.setKills ks).spawns = [] := hp
            refine ⟨ks, ?_⟩
            rw [runStartup, hs2, runStartup, hs]
            simp only [hp, hp2]
            rfl
          · cases so with
            | some pid =>
              obtain ⟨ks2, hks⟩ := ih (Phase.racing pid)
                { env with sleeps := sl, spawns := sp } ks
                (acc ++ [Action.sleepFor st, Action.spawnProbe, Action.spawnOk pid])
              refine ⟨ks2, ?_⟩
              rw [runStartup_spawn_ok fuel st (env.setKills ks) acc sl pid sp hs hp,
                runStartup_spawn_ok fuel st env acc sl pid sp hs hp]
              exact hks
            | none =>
              obtain ⟨ks2, hks⟩ := ih (Phase.sleeping initialDelay)
                { env with sleeps := sl, spawns := sp } ks
                (acc ++ [Action.sleepFor st, Action.spawnProbe])
              refine ⟨ks2, ?_⟩
              rw [runStartup_spawn_fail fuel st (env.setKills ks) acc sl sp hs hp,
                runStartup_spawn_fail fuel st env acc sl sp hs hp]
              exact hks
        | some rem =>
          obtain ⟨ks3, hk3⟩ := relay_kills (popPending { env with sleeps := sl }).1
            (popPending { env with sleeps := sl }).2 ks (acc ++ [Action.sleepFor st])
          have hpp : processRelayBatch
              (popPending (({ env with sleeps := sl } : Env).setKills ks)).2
              (popPending (({ env with sleeps := sl } : Env).setKills ks)).1
              (acc ++ [Action.sleepFor st]) =
            RelayOutcome.setKills ks3 (processRelayBatch
              (popPending { env with sleeps := sl }).2
              (popPending { env with sleeps := sl }).1 (acc ++ [Action.sleepFor st])) := by
            rw [popPending_setKills]
            exact hk3
          rcases hpr : processRelayBatch (popPending { env with sleeps := sl }).2
              (popPending { env with sleeps := sl }).1 (acc ++ [Action.sleepFor st]) with
            ⟨code, e3, a3⟩ | ⟨e3, a3⟩
          · rw [hpr] at hpp
            refine ⟨ks3, ?_⟩
            rw [runStartup_sleep_exit fuel st rem (env.setKills ks) acc sl hs code
                (e3.setKills ks3) a3 hpp,
              runStartup_sleep_exit fuel st rem env acc sl hs code e3 a3 hpr]
            rfl
          · rw [hpr] at hpp
            obtain ⟨ks2, hks⟩ := ih (Phase.sleeping rem) e3 ks3 a3
            refine ⟨ks2, ?_⟩
            rw [runStartup_sleep_cont fuel st rem (env.setKills ks) acc sl hs
                (e3.setKills ks3) a3 hpp,
              runStartup_sleep_cont fuel st rem env acc sl hs e3 a3 hpr]
            exact hks
    | racing pid =>
      rcases hb : env.batches with _ | ⟨b, bs⟩
      · have hb2 : (env.setKills ks).batches = [] := hb
        refine ⟨ks, ?_⟩
        rw [runStartup, hb2, runStartup, hb]
        rfl
      · obtain ⟨ks3, hk3⟩ := race_kills b { env with batches := bs } pid ks acc
        have hb2 : (env.setKills ks).batches = b :: bs := hb
        rcases hpr : processRaceBatch { env with batches := bs } pid b acc with
          ⟨code, e2, a2⟩ | ⟨e2, a2⟩ | ⟨e2, a2⟩ | ⟨e2, a2⟩ <;> rw [hpr] at hk3
        · refine ⟨ks3, ?_⟩
          rw [runStartup_race_childExit fuel pid (env.setKills ks) acc b bs hb2 code
              (e2.setKills ks3) a2 hk3,
            runStartup_race_childExit fuel pid env acc b bs hb code e2 a2 hpr]
          rfl
        · refine ⟨ks3, ?_⟩
          rw [runStartup_race_ready fuel pid (env.setKills ks) acc b bs hb2
              (e2.setKills ks3) a2 hk3,
            runStartup_race_ready fuel pid env acc b bs hb e2 a2 hpr]
          rfl
        · obtain ⟨ks2, hks⟩ := ih (Phase.sleeping initialDelay) e2 ks3 a2
          refine ⟨ks2, ?_⟩
          rw [runStartup_race_probeFailed fuel pid (env.setKills ks) acc b bs hb2
              (e2.setKills ks3) a2 hk3,
            runStartup_race_probeFailed fuel pid env acc b bs hb e2 a2 hpr]
          exact hks
        · obtain ⟨ks2, hks⟩ := ih (Phase.racing pid) e2 ks3 a2
          refine ⟨ks2, ?_⟩
          rw [runStartup_race_cont fuel pid (env.setKills ks) acc b bs hb2
              (e2.setKills ks3) a2 hk3,
            runStartup_race_cont fuel pid env acc b bs hb e2 a2 hpr]
          exact hks

/-- `propagate_signals` never reads the kill results. -/
theorem steady_kills (fuel : Nat) :
    ∀ (env : Env) (ks : List Bool) (acc : List Action),
    ∃ ks2, runSteady fuel (env.setKills ks) acc =
      (runSteady fuel env acc).map (fun x => (x.1, x.2.1.setKills ks2, x.2.2)) := by
  induction fuel with
  | zero =>
    intro env ks acc
    exact ⟨ks, rfl⟩
  | succ fuel ih =>
    intro env ks acc
    rcases hb : env.batches with _ | ⟨b, bs⟩
    · have hb2 : (env.setKills ks).batches = [] := hb
      refine ⟨ks, ?_⟩
      rw [runSteady, hb2, runSteady, hb]
      rfl
    · obtain ⟨ks3, hk3⟩ := relay_kills b { env with batches := bs } ks acc
      have hb2 : (env.setKills ks).batches = b :: bs := hb
      rcases hpr : processRelayBatch { env with batches := bs } b acc with
        ⟨c3, e3, a3⟩ | ⟨e3, a3⟩ <;> rw [hpr] at hk3
      · refine ⟨ks3, ?_⟩
        rw [runSteady_exit fuel (env.setKills ks) acc b bs hb2 c3 (e3.setKills ks3) a3 hk3,
          runSteady_exit fuel env acc b bs hb c3 e3 a3 hpr]
        rfl
      · obtain ⟨ks2, hks⟩ := ih e3 ks3 a3
        refine ⟨ks2, ?_⟩
        rw [runSteady_cont fuel (env.setKills ks) acc b bs hb2 (e3.setKills ks3) a3 hk3,
          runSteady_cont fuel env acc b bs hb e3 a3 hpr]
        exact hks

/-- The whole supervised run never reads the kill results. -/
theorem main_kills (nc : Bool) (env : Env) (fuel : Nat) (ks : List Bool) :
    ∃ ks2, mainRun nc (env.setKills ks) fuel =
      (mainRun nc env fuel).map (fun x => (x.1, x.2.1.setKills ks2, x.2.2)) := by
  unfold mainRun
  obtain ⟨ks2, hks⟩ := startup_kills fuel (Phase.sleeping initialDelay) env ks []
  rw [hks]
  rcases hst : runStartup fuel (Phase.sleeping initialDelay) env [] with _ | ⟨r, e1, t1⟩
  · exact ⟨ks2, rfl⟩
  · rcases r with c | u
    · exact ⟨ks2, rfl⟩
    · simp only [Option.map_some]
      obtain ⟨ks3, hks3⟩ := steady_kills fuel e1 ks2
        (if nc then t1 ++ [Action.notifySent] else t1)
      exact ⟨ks3, hks3⟩

/-! ### Computed forms of batch processing -/

theorem forwardsOf_cons_fwd (sg : Sig) (hsg : sg ≠ Sig.CHLD) (pid : Option Int)
    (rest : List SigEvent) :
    forwardsOf (⟨sg, pid⟩ :: rest) = Action.forward sg :: forwardsOf rest := by
  cases sg <;> first | rfl | exact absurd rfl hsg

theorem forwardsOf_cons_chld (pid : Option Int) (rest : List SigEvent) :
    forwardsOf (⟨Sig.CHLD, pid⟩ :: rest) = forwardsOf rest :=
  rfl

/-- A relay batch with no event reporting the supervised child's exit is
fully processed: every non-`SIGCHLD` event is forwarded in order, stray
`SIGCHLD` events are discarded, and only the kill oracle is consumed. -/
theorem relay_compute_cont (b : List SigEvent) : ∀ (env : Env) (acc : List Action),
    (∀ e ∈ b, ¬ (e.signal = Sig.CHLD ∧ originPid e = some env.childPid)) →
    ∃ ks2, processRelayBatch env b acc =
      RelayOutcome.cont (env.setKills ks2) (acc ++ forwardsOf b) := by
  induction b with
  | nil =>
    intro env acc _
    refine ⟨env.kills, ?_⟩
    have heta : env.setKills env.kills = env := rfl
    rw [heta]
    simp [processRelayBatch, forwardsOf]
  | cons e rest ih =>
    intro env acc hno
    rcases e with ⟨sg, pid⟩
    by_cases hsg : sg = Sig.CHLD
    · subst hsg
      have hne : ¬ originPid ⟨Sig.CHLD, pid⟩ = some env.childPid := by
        intro hcon
        exact hno _ (List.mem_cons_self _ _) ⟨rfl, hcon⟩
      rw [processRelayBatch_cons_skip env pid hne, forwardsOf_cons_chld]
      exact ih env acc (fun e2 he2 => hno e2 (List.mem_cons_of_mem _ he2))
    · rw [processRelayBatch_cons_forward env sg hsg, forwardsOf_cons_fwd sg hsg]
      obtain ⟨ks2, hks⟩ := ih (popKill env) (acc ++ [Action.forward sg])
        (fun e2 he2 => hno e2 (List.mem_cons_of_mem _ he2))
      refine ⟨ks2, ?_⟩
      rw [hks]
      have heq : (popKill env).setKills ks2 = env.setKills ks2 := rfl
      rw [heq]
      simp [List.append_assoc]

/-- A relay batch whose first event reporting the supervised child's exit
comes after a child-exit-free prefix exits with the child's code, after
forwarding exactly the prefix's non-`SIGCHLD` events. -/
theorem relay_compute_exit (b1 : List SigEvent) : ∀ (env : Env) (e : SigEvent)
    (b2 : List SigEvent) (acc : List Action),
    e.signal = Sig.CHLD → originPid e = some env.childPid →
    (∀ e2 ∈ b1, ¬ (e2.signal = Sig.CHLD ∧ originPid e2 = some env.childPid)) →
    ∃ e3, processRelayBatch env (b1 ++ e :: b2) acc =
      RelayOutcome.exited (env.childCode.getD 1) e3
        (acc ++ forwardsOf b1 ++ [Action.reapChild]) := by
  induction b1 with
  | nil =>
    intro env e b2 acc hsig hpid _
    rcases e with ⟨sg, pid⟩
    cases hsig
    rw [List.nil_append]
    rw [processRelayBatch_cons_exit env pid hpid]
    exact ⟨requeue env b2, by simp [forwardsOf]⟩
  | cons e2 b1' ih =>
    intro env e b2 acc hsig hpid hno
    rcases e2 with ⟨sg, pid2⟩
    by_cases hsg : sg = Sig.CHLD
    · subst hsg
      have hne : ¬ originPid ⟨Sig.CHLD, pid2⟩ = some env.childPid := by
        intro hcon
        exact hno _ (List.mem_cons_self _ _) ⟨rfl, hcon⟩
      rw [List.cons_append, processRelayBatch_cons_skip env pid2 hne, forwardsOf_cons_chld]
      exact ih env e b2 acc hsig hpid (fun e3 he3 => hno e3 (List.mem_cons_of_mem _ he3))
    · rw [List.cons_append, processRelayBatch_cons_forward env sg hsg,
        forwardsOf_cons_fwd sg hsg]
      obtain ⟨e3, hks⟩ := ih (popKill env) e b2 (acc ++ [Action.forward sg]) hsig hpid
        (fun e4 he4 => hno e4 (List.mem_cons_of_mem _ he4))
      refine ⟨e3, ?_⟩
      rw [hks]
      have heq : (popKill env).childCode = env.childCode := rfl
      rw [heq]
      simp [List.append_assoc]

/-- A racing batch whose first decisive event is the supervised child's
exit reaps the child, terminates and reaps the probe, and exits with the
child's code, after forwarding exactly the prefix's non-`SIGCHLD`
events. -/
theorem race_compute_childExit (b1 : List SigEvent) : ∀ (env : Env) (probePid : Nat)
    (e : SigEvent) (b2 : List SigEvent) (acc : List Action),
    e.signal = Sig.CHLD → originPid e = some env.childPid →
    (∀ e2 ∈ b1, ¬ (e2.signal = Sig.CHLD ∧
      (originPid e2 = some env.childPid ∨ originPid e2 = some probePid))) →
    ∃ e3, processRaceBatch env probePid (b1 ++ e :: b2) acc =
      RaceOutcome.childExited (env.childCode.getD 1) e3
        (acc ++ forwardsOf b1 ++
          [Action.reapChild, Action.termProbe probePid, Action.reapProbe]) := by
  induction b1 with
  | nil =>
    intro env probePid e b2 acc hsig hpid _
    rcases e with ⟨sg, pid⟩
    cases hsig
    rw [List.nil_append]
    rw [processRaceBatch_cons_childExit env probePid pid hpid]
    exact ⟨requeue (popProbe (popKill env)).2 b2, by simp [forwardsOf]⟩
  | cons e2 b1' ih =>
    intro env probePid e b2 acc hsig hpid hno
    rcases e2 with ⟨sg, pid2⟩
    by_cases hsg : sg = Sig.CHLD
    · subst hsg
      have hne : ¬ (originPid ⟨Sig.CHLD, pid2⟩ = some env.childPid ∨
          originPid ⟨Sig.CHLD, pid2⟩ = some probePid) := by
        intro hcon
        exact hno _ (List.mem_cons_self _ _) ⟨rfl, hcon⟩
      rw [not_or] at hne
      rw [List.cons_append]
      rcases ho : originPid ⟨Sig.CHLD, pid2⟩ with _ | p
      · rw [processRaceBatch_cons_skip_none env probePid pid2 ho, forwardsOf_cons_chld]
        exact ih env probePid e b2 acc hsig hpid
          (fun e3 he3 => hno e3 (List.mem_cons_of_mem _ he3))
      · have hc : p ≠ env.childPid := by
          intro hcon
          exact hne.1 (by rw [ho, hcon])
        have hp : p ≠ probePid := by
          intro hcon
          exact hne.2 (by rw [ho, hcon])
        rw [processRaceBatch_cons_skip_other env probePid pid2 p ho hc hp,
          forwardsOf_cons_chld]
        exact ih env probePid e b2 acc hsig hpid
          (fun e3 he3 => hno e3 (List.mem_cons_of_mem _ he3))
    · rw [List.cons_append, processRaceBatch_cons_forward env probePid sg hsg,
        forwardsOf_cons_fwd sg hsg]
      obtain ⟨e3, hks⟩ := ih (popKill env) probePid e b2 (acc ++ [Action.forward sg]) hsig hpid
        (fun e4 he4 => hno e4 (List.mem_cons_of_mem _ he4))
      refine ⟨e3, ?_⟩
      rw [hks]
      have heq : (popKill env).childCode = env.childCode := rfl
      rw [heq]
      simp [List.append_assoc]

/-! ### The claims -/

/-- Claim C1, code evidence: `from_env` itself removes `NOTIFY_SOCKET`
from the supervisor's environment (src/sd_notify.rs line 35), so even with
`--child-notify` set the child spawned at src/main.rs lines 130-132 does
not inherit the variable — against the flag's documented purpose ("Pass
NOTIFY_SOCKET environment variable to child program") and against the
redundancy of `take_from_env`'s second removal.  The probe side of the
claim holds: the probe is always spawned with the variable removed
(src/main.rs line 158). -/
theorem C1_child_notify_env_bug :
    (mainNotifySetup true (some "/run/notify.sock")).2 = none ∧
    (mainNotifySetup false (some "/run/notify.sock")).2 = none ∧
    (mainNotifySetup true (some "/run/notify.sock")).1 = some ⟨"/run/notify.sock"⟩ ∧
    probeEnvVar (some "/run/notify.sock") = none := by
  decide

/-- Claim C3: once a creation function has returned `Ok`, the stored value
never changes again, and no creation function passed to any later
`get_or_create` call is invoked: every subsequent call returns the
existing value with its creator unused. -/
theorem C3_success_is_permanent {T E : Type} (s : LazyFailInit T)
    (f : Unit → Except E T) (v : T) (fs : List (Unit → Except E T))
    (h0 : s.initialized = false) (hf : f () = Except.ok v) :
    s.get_or_create f = (Except.ok (some v), ⟨true, some v⟩, true) ∧
    LazyFailInit.runCreates (⟨true, some v⟩ : LazyFailInit T) fs =
      (⟨true, some v⟩, fs.map (fun _ => (Except.ok (some v), false))) := by
  constructor
  · simp [LazyFailInit.get_or_create, h0, hf]
  · induction fs with
    | nil => rfl
    | cons g gs ih => simp [LazyFailInit.runCreates, LazyFailInit.get_or_create, ih]

/-- Witness for C3 at a concrete instance. -/
theorem C3_success_is_permanent_witness :
    (⟨false, none⟩ : LazyFailInit Nat).get_or_create
        (fun _ => (Except.ok 5 : Except Nat Nat)) =
      (Except.ok (some 5), ⟨true, some 5⟩, true) ∧
    LazyFailInit.runCreates (⟨true, some 5⟩ : LazyFailInit Nat)
        [fun _ => (Except.error 9 : Except Nat Nat)] =
      (⟨true, some 5⟩, [(Except.ok (some 5), false)]) :=
  C3_success_is_permanent ⟨false, none⟩ _ 5 _ rfl rfl

/-- Claim C4: a failing creator's error is returned verbatim and leaves
the container uninitialized (`get` still `none`, state unchanged); a
subsequent succeeding creator initializes it and `get` returns `some`;
the failure is never cached. -/
theorem C4_failure_not_cached {T E : Type} (e : E) (v : T)
    (f g : Unit → Except E T) (hf : f () = Except.error e) (hg : g () = Except.ok v) :
    (⟨false, none⟩ : LazyFailInit T).get_or_create f =
      (Except.error e, ⟨false, none⟩, true) ∧
    (⟨false, none⟩ : LazyFailInit T).get = none ∧
    (⟨false, none⟩ : LazyFailInit T).get_or_create g =
      (Except.ok (some v), ⟨true, some v⟩, true) ∧
    (⟨true, some v⟩ : LazyFailInit T).get = some v := by
  refine ⟨?_, rfl, ?_, rfl⟩
  · simp [LazyFailInit.get_or_create, hf]
  · simp [LazyFailInit.get_or_create, hg]

/-- Witness for C4 at a concrete instance. -/
theorem C4_failure_not_cached_witness :
    (⟨false, none⟩ : LazyFailInit Nat).get_or_create
        (fun _ => (Except.error 7 : Except Nat Nat)) =
      (Except.error 7, ⟨false, none⟩, true) ∧
    (⟨false, none⟩ : LazyFailInit Nat).get = none ∧
    (⟨false, none⟩ : LazyFailInit Nat).get_or_create
        (fun _ => (Except.ok 3 : Except Nat Nat)) =
      (Except.ok (some 3), ⟨true, some 3⟩, true) ∧
    (⟨true, some 3⟩ : LazyFailInit Nat).get = some 3 :=
  C4_failure_not_cached 7 3 _ _ rfl rfl

/-- Claim C2 counterexample: a drained racing batch containing both a
probe-success event and a supervised-child-exit event is processed in
delivery order; with the probe-success event first, `wait_for_startup`
returns `Ok` (`Ready`), not `ChildExited` — the child's exit does not win
regardless of order. -/
theorem C2_counterexample :
    (runStartup 3 (Phase.sleeping initialDelay) envC2 []).map (fun x => x.1) =
      some (Except.ok ()) ∧
    (runStartup 3 (Phase.sleeping initialDelay) envC2 []).map (fun x => x.1) ≠
      some (Except.error 7) := by
  constructor
  · rfl
  · intro hcon
    have hok : (some (Except.ok ()) : Option (Except Int Unit)) =
        some (Except.error 7) := by
      rw [← hcon]
      rfl
    exact Except.noConfusion (Option.some.inj hok)

/-- Claim C2 amended: within a drained batch processed while `Racing`,
events are handled in delivery order, so the child's exit wins exactly
when the child-exit event precedes every probe-exit event of the batch:
in that case the supervisor reaps the child, terminates and reaps the
probe, and returns the child's exit code. -/
theorem C2_amended_child_exit_first_wins (fuel : Nat) (env : Env) (probePid : Nat)
    (b1 b2 : List SigEvent) (bs : List (List SigEvent)) (e : SigEvent) (acc : List Action)
    (hb : env.batches = (b1 ++ e :: b2) :: bs)
    (hsig : e.signal = Sig.CHLD) (hpid : originPid e = some env.childPid)
    (hb1 : ∀ e2 ∈ b1, ¬ (e2.signal = Sig.CHLD ∧
      (originPid e2 = some env.childPid ∨ originPid e2 = some probePid))) :
    ∃ e3, runStartup (fuel + 1) (Phase.racing probePid) env acc =
      some (Except.error (env.childCode.getD 1), e3,
        acc ++ forwardsOf b1 ++
          [Action.reapChild, Action.termProbe probePid, Action.reapProbe]) := by
  obtain ⟨e3, h3⟩ := race_compute_childExit b1 { env with batches := bs } probePid e b2 acc
    hsig hpid hb1
  refine ⟨e3, ?_⟩
  rw [runStartup_race_childExit fuel probePid env acc (b1 ++ e :: b2) bs hb _ e3 _ h3]

/-- Witness for amended C2 at a concrete instance. -/
theorem C2_amended_witness :
    (runStartup 1 (Phase.racing 20) envC2b []).map (fun x => (x.1, x.2.2)) =
      some (Except.error 7,
        [Action.reapChild, Action.termProbe 20, Action.reapProbe]) := by
  obtain ⟨e3, h3⟩ := C2_amended_child_exit_first_wins 0 envC2b 20 [] [⟨Sig.CHLD, some 20⟩]
    [] ⟨Sig.CHLD, some 10⟩ [] rfl rfl (by decide)
    (fun e2 he2 => absurd he2 (List.not_mem_nil _))
  rw [h3]
  rfl

/-- Claim C6: for every terminating run, the overall exit code equals the
supervised child's exit code when the child exited normally, and 1 when
its code is unavailable — whether the child exits during startup or in
steady state. -/
theorem C6_exit_code_propagation (nc : Bool) (env : Env) (fuel : Nat)
    (code : Int) (e : Env) (t : List Action)
    (h : mainRun nc env fuel = some (code, e, t)) :
    (∀ c, env.childCode = some c → code = c) ∧
    (env.childCode = none → code = 1) := by
  have hm := main_exit nc env fuel code e t h
  constructor
  · intro c hc
    rw [hm, hc]
    rfl
  · intro hc
    rw [hm, hc]
    rfl

/-- Witness for C6 at a concrete instance. -/
theorem C6_exit_code_propagation_witness :
    (∀ c, env6.childCode = some c → (5 : Int) = c) ∧
    (env6.childCode = none → (5 : Int) = 1) :=
  C6_exit_code_propagation false env6 2 5 ⟨10, [], [], [], some 5, [], []⟩
    [Action.sleepFor initialDelay, Action.reapChild] (by decide)

/-- Claim C7: a probe spawn failure transitions back to `Sleeping` with
the delay reset to the full fixed interval (and the cycle retried); the
step produces no exit of its own, and the eventual exit code of any
terminating run is still determined solely by the child's status. -/
theorem C7_spawn_failure_nonfatal (fuel : Nat) (t : Nat) (env : Env) (acc : List Action)
    (sl sp : List (Option Nat)) (hs : env.sleeps = none :: sl) (hp : env.spawns = none :: sp)
    (nc : Bool) (env2 : Env) (fuel2 : Nat) (code : Int) (e : Env) (t2 : List Action)
    (h2 : mainRun nc env2 fuel2 = some (code, e, t2)) :
    runStartup (fuel + 1) (Phase.sleeping t) env acc =
      runStartup fuel (Phase.sleeping initialDelay)
        { env with sleeps := sl, spawns := sp }
        (acc ++ [Action.sleepFor t, Action.spawnProbe]) ∧
    code = env2.childCode.getD 1 :=
  ⟨runStartup_spawn_fail fuel t env acc sl sp hs hp, main_exit nc env2 fuel2 code e t2 h2⟩

/-- Witness for C7 at a concrete instance. -/
theorem C7_spawn_failure_nonfatal_witness :
    runStartup 3 (Phase.sleeping initialDelay) env7 [] =
      runStartup 2 (Phase.sleeping initialDelay)
        { env7 with sleeps := [some 5], spawns := [] }
        ([] ++ [Action.sleepFor initialDelay, Action.spawnProbe]) ∧
    (4 : Int) = env7.childCode.getD 1 :=
  C7_spawn_failure_nonfatal 2 initialDelay env7 [] [some 5] [] rfl rfl
    false env7 3 4 ⟨10, [], [], [], some 4, [], []⟩
    [Action.sleepFor initialDelay, Action.spawnProbe,
      Action.sleepFor initialDelay, Action.reapChild] (by decide)

/-- Claim C10: in every phase, a child-exit signal event whose origin is
absent, not convertible to a valid pid, or matching neither the supervised
child nor the racing probe is silently discarded: no forwarding, no state
change, no reap, no termination — processing simply moves to the next
event. -/
theorem C10_stray_sigchld_discarded (env : Env) (probePid : Nat) (e : SigEvent)
    (rest : List SigEvent) (acc : List Action)
    (hsig : e.signal = Sig.CHLD)
    (hnc : originPid e ≠ some env.childPid)
    (hnp : originPid e ≠ some probePid) :
    processRelayBatch env (e :: rest) acc = processRelayBatch env rest acc ∧
    processRaceBatch env probePid (e :: rest) acc =
      processRaceBatch env probePid rest acc := by
  rcases e with ⟨sg, pid⟩
  cases hsig
  constructor
  · exact processRelayBatch_cons_skip env pid hnc rest acc
  · rcases ho : originPid ⟨Sig.CHLD, pid⟩ with _ | p
    · exact processRaceBatch_cons_skip_none env probePid pid ho rest acc
    · have hc : p ≠ env.childPid := fun hcon => hnc (by rw [ho, hcon])
      have hp : p ≠ probePid := fun hcon => hnp (by rw [ho, hcon])
      exact processRaceBatch_cons_skip_other env probePid pid p ho hc hp rest acc

/-- Witness for C10 at a concrete instance (origin pid 30 matching neither
the child, pid 10, nor the probe, pid 20). -/
theorem C10_stray_sigchld_discarded_witness :
    processRelayBatch ⟨10, [], [], [], some 0, [], []⟩ [⟨Sig.CHLD, some 30⟩] [] =
      processRelayBatch ⟨10, [], [], [], some 0, [], []⟩ [] [] ∧
    processRaceBatch ⟨10, [], [], [], some 0, [], []⟩ 20 [⟨Sig.CHLD, some 30⟩] [] =
      processRaceBatch ⟨10, [], [], [], some 0, [], []⟩ 20 [] [] :=
  C10_stray_sigchld_discarded ⟨10, [], [], [], some 0, [], []⟩ 20 ⟨Sig.CHLD, some 30⟩ [] []
    rfl (by decide) (by decide)

/-- Claim C5: at most one readiness notification ever happens in a run;
none when no probe success is observed (in particular when the child exits
before any probe succeeds); exactly one when the probe succeeds and a
notify channel is configured; and any notification comes only after the
first successful probe observation. -/
theorem C5_exactly_one_notification (nc : Bool) (env : Env) (fuel : Nat)
    (code : Int) (e : Env) (t : List Action)
    (h : mainRun nc env fuel = some (code, e, t)) :
    countA Action.notifySent t ≤ 1 ∧
    (Action.probeExited true ∉ t → countA Action.notifySent t = 0) ∧
    (Action.probeExited true ∈ t → nc = true → countA Action.notifySent t = 1) ∧
    ∀ n, Action.notifySent ∈ t.take n → Action.probeExited true ∈ t.take n := by
  unfold mainRun at h
  rcases hst : runStartup fuel (Phase.sleeping initialDelay) env [] with _ | ⟨r, e1, t1⟩
  · rw [hst] at h
    exact absurd h (by simp)
  · rw [hst] at h
    obtain ⟨u1, hu1, hn1, hf1, hok1, hnok1⟩ := startup_emits fuel _ _ _ _ _ _ hst
    rw [List.nil_append] at hu1
    rw [hu1] at h
    rcases r with c | uu
    · simp only at h
      obtain ⟨hc1, he1, ht1⟩ : code = c ∧ e = e1 ∧ t = u1 := by simpa using h.symm
      rw [ht1]
      have hpe : Action.probeExited true ∉ u1 :=
        hnok1 (fun hcon => Except.noConfusion hcon)
      have hzero := countA_eq_zero Action.notifySent u1 hn1
      refine ⟨by omega, fun _ => hzero, fun hmem _ => absurd hmem hpe, ?_⟩
      intro n hmem
      exact absurd (List.take_subset n u1 hmem) hn1
    · simp only at h
      obtain ⟨v, hv, hnv, hfv, hpev⟩ := steady_emits fuel _ _ _ _ _ h
      have hpe1 : Action.probeExited true ∈ u1 := hok1 rfl
      cases nc with
      | false =>
        have hv2 : t = u1 ++ v := hv
        have hnt : Action.notifySent ∉ t := by
          rw [hv2]
          exact not_mem_append_of hn1 hnv
        have hzero := countA_eq_zero Action.notifySent t hnt
        refine ⟨by omega, fun _ => hzero, fun _ hfalse => Bool.noConfusion hfalse, ?_⟩
        intro n hmem
        exact absurd (List.take_subset n t hmem) hnt
      | true =>
        have hv2 : t = (u1 ++ [Action.notifySent]) ++ v := hv
        have hcount : countA Action.notifySent t = 1 := by
          rw [hv2, countA_append, countA_append, countA_eq_zero _ u1 hn1,
            countA_eq_zero _ v hnv]
          rfl
        have hpet : Action.probeExited true ∈ t := by
          rw [hv2]
          exact List.mem_append_left _ (List.mem_append_left _ hpe1)
        refine ⟨by omega, fun hnot => absurd hpet hnot, fun _ _ => hcount, ?_⟩
        intro n hmem
        rw [hv2, List.append_assoc] at hmem ⊢
        rw [List.take_append_eq_append_take] at hmem ⊢
        by_cases hlen : n ≤ u1.length
        · exfalso
          have hz : n - u1.length = 0 := Nat.sub_eq_zero_of_le hlen
          rw [hz] at hmem
          simp only [List.take_zero, List.append_nil] at hmem
          exact hn1 (List.take_subset n u1 hmem)
        · have hle : u1.length ≤ n := Nat.le_of_lt (Nat.lt_of_not_le hlen)
          rw [List.take_of_length_le hle]
          exact List.mem_append_left _ hpe1

/-- Witness for C5 at a concrete instance. -/
theorem C5_exactly_one_notification_witness :
    countA Action.notifySent t5lit ≤ 1 ∧
    countA Action.notifySent t5lit = 1 ∧
    Action.probeExited true ∈ t5lit.take 5 := by
  have h := C5_exactly_one_notification true env5 4 0 e5fin t5lit (by decide)
  exact ⟨h.1, h.2.2.1 (by decide) rfl, h.2.2.2 5 (by decide)⟩

/-- Claim C8 counterexample: while `Sleeping`, a drained child-exit-kind
event that does not report the supervised child's exit (origin absent) is
not relayed: the run's trace contains no forwarding action at all between
the two sleeps, although the drained signal was not the child's own
exit.  (The remaining delay, 77, is indeed preserved.) -/
theorem C8_counterexample :
    (runStartup 3 (Phase.sleeping initialDelay) env8 []).map (fun x => x.2.2) =
      some [Action.sleepFor initialDelay, Action.sleepFor 77, Action.reapChild] ∧
    originPid ⟨Sig.CHLD, none⟩ ≠ some env8.childPid ∧
    countA (Action.forward Sig.CHLD)
      [Action.sleepFor initialDelay, Action.sleepFor 77, Action.reapChild] = 0 :=
  ⟨rfl, by decide, rfl⟩

theorem popPending_of_batches (env : Env) (b : List SigEvent)
    (bs : List (List SigEvent)) (hb : env.batches = b :: bs) :
    popPending env = (b, { env with batches := bs }) := by
  unfold popPending
  rw [hb]

/-- Claim C8 amended: while `Sleeping`, a drained batch without the
supervised child's own exit relays exactly its events of non-child-exit
kinds, in order; child-exit-kind events from other origins are discarded;
the remaining delay is preserved for the next sleep; and nothing else
changes except the consumed (discarded) kill results.  A batch whose
first child-exit-kind event reporting the supervised child follows a
prefix free of such events exits directly with the child reaped. -/
theorem C8_amended_sleeping_relay (fuel : Nat) (t rem : Nat) (env : Env)
    (acc : List Action) (sl : List (Option Nat)) (b : List SigEvent)
    (bs : List (List SigEvent))
    (hs : env.sleeps = some rem :: sl) (hb : env.batches = b :: bs) :
    ((∀ e2 ∈ b, ¬ (e2.signal = Sig.CHLD ∧ originPid e2 = some env.childPid)) →
      ∃ ks2, runStartup (fuel + 1) (Phase.sleeping t) env acc =
        runStartup fuel (Phase.sleeping rem)
          (({ env with sleeps := sl, batches := bs } : Env).setKills ks2)
          (acc ++ [Action.sleepFor t] ++ forwardsOf b)) ∧
    (∀ b1 e2 b2, b = b1 ++ e2 :: b2 → e2.signal = Sig.CHLD →
      originPid e2 = some env.childPid →
      (∀ e3 ∈ b1, ¬ (e3.signal = Sig.CHLD ∧ originPid e3 = some env.childPid)) →
      ∃ e4, runStartup (fuel + 1) (Phase.sleeping t) env acc =
        some (Except.error (env.childCode.getD 1), e4,
          acc ++ [Action.sleepFor t] ++ forwardsOf b1 ++ [Action.reapChild])) := by
  have hpop : popPending ({ env with sleeps := sl } : Env) =
      (b, { env with sleeps := sl, batches := bs }) :=
    popPending_of_batches { env with sleeps := sl } b bs hb
  constructor
  · intro hno
    obtain ⟨ks2, hc⟩ := relay_compute_cont b { env with sleeps := sl, batches := bs }
      (acc ++ [Action.sleepFor t]) hno
    refine ⟨ks2, ?_⟩
    have hproc : processRelayBatch (popPending ({ env with sleeps := sl } : Env)).2
        (popPending ({ env with sleeps := sl } : Env)).1 (acc ++ [Action.sleepFor t]) =
        RelayOutcome.cont
          (({ env with sleeps := sl, batches := bs } : Env).setKills ks2)
          ((acc ++ [Action.sleepFor t]) ++ forwardsOf b) := by
      rw [hpop]
      exact hc
    rw [runStartup_sleep_cont fuel t rem env acc sl hs _ _ hproc]
  · intro b1 e2 b2 hbe hsg hpid hno1
    obtain ⟨e4, hcx⟩ := relay_compute_exit b1 { env with sleeps := sl, batches := bs }
      e2 b2 (acc ++ [Action.sleepFor t]) hsg hpid hno1
    have hproc : processRelayBatch (popPending ({ env with sleeps := sl } : Env)).2
        (popPending ({ env with sleeps := sl } : Env)).1 (acc ++ [Action.sleepFor t]) =
        RelayOutcome.exited (env.childCode.getD 1) e4
          ((acc ++ [Action.sleepFor t]) ++ forwardsOf b1 ++ [Action.reapChild]) := by
      rw [hpop, hbe]
      exact hcx
    exact ⟨e4, runStartup_sleep_exit fuel t rem env acc sl hs _ e4 _ hproc⟩

/-- Witness for amended C8 at a concrete instance. -/
theorem C8_amended_sleeping_relay_witness :
    (runStartup 2 (Phase.sleeping initialDelay) env8w []).map (fun x => (x.1, x.2.2)) =
      some (Except.error 2,
        [Action.sleepFor initialDelay, Action.forward Sig.INT,
          Action.sleepFor 42, Action.reapChild]) := by
  obtain ⟨ks2, hks⟩ := (C8_amended_sleeping_relay 1 initialDelay 42 env8w [] [some 7]
    [⟨Sig.INT, some 99⟩, ⟨Sig.CHLD, none⟩] [[⟨Sig.CHLD, some 10⟩]] rfl rfl).1 (by decide)
  rw [hks]
  rfl

/-- The whole-run trace never contains a forwarding of the child-exit
kind. -/
theorem main_noCHLD (nc : Bool) (env : Env) (fuel : Nat) (code : Int) (e : Env)
    (t : List Action) (h : mainRun nc env fuel = some (code, e, t)) :
    Action.forward Sig.CHLD ∉ t := by
  unfold mainRun at h
  rcases hst : runStartup fuel (Phase.sleeping initialDelay) env [] with _ | ⟨r, e1, t1⟩
  · rw [hst] at h
    exact absurd h (by simp)
  · rw [hst] at h
    obtain ⟨u1, hu1, hn1, hf1, _, _⟩ := startup_emits fuel _ _ _ _ _ _ hst
    rw [List.nil_append] at hu1
    rw [hu1] at h
    rcases r with c | uu
    · simp only at h
      obtain ⟨hc1, he1, ht1⟩ : code = c ∧ e = e1 ∧ t = u1 := by simpa using h.symm
      rw [ht1]
      exact hf1
    · simp only at h
      obtain ⟨v, hv, hnv, hfv, _⟩ := steady_emits fuel _ _ _ _ _ h
      rw [hv]
      refine not_mem_append_of ?_ hfv
      cases nc with
      | false => exact hf1
      | true => exact not_mem_append_of hf1 (by simp)

/-- Claim C9: in every phase, the child-exit signal kind is never
forwarded; every other monitored kind is forwarded exactly once per
drained delivery (with the not-yet-drained deliveries still pending when
the supervisor exits); and the discarded results of the forwarding `kill`
calls influence neither the exit code nor the action trace. -/
theorem C9_forwarding_contract (nc : Bool) (env : Env) (fuel : Nat) :
    (∀ code e t, mainRun nc env fuel = some (code, e, t) →
      Action.forward Sig.CHLD ∉ t ∧
      ∀ s, s ≠ Sig.CHLD →
        countA (Action.forward s) t + countSig s e.batches = countSig s env.batches) ∧
    ∀ ks, (mainRun nc (env.setKills ks) fuel).map (fun x => (x.1, x.2.2)) =
      (mainRun nc env fuel).map (fun x => (x.1, x.2.2)) := by
  constructor
  · intro code e t h
    exact ⟨main_noCHLD nc env fuel code e t h,
      fun s hsne => main_count s hsne nc env fuel code e t h⟩
  · intro ks
    obtain ⟨ks2, hm⟩ := main_kills nc env fuel ks
    rw [hm]
    cases mainRun nc env fuel <;> rfl

/-- Witness for C9 at a concrete instance. -/
theorem C9_forwarding_contract_witness :
    Action.forward Sig.CHLD ∉ t5lit ∧
    countA (Action.forward Sig.INT) t5lit + countSig Sig.INT e5fin.batches =
      countSig Sig.INT env5.batches ∧
    (mainRun true (env5.setKills [false, true]) 4).map (fun x => (x.1, x.2.2)) =
      (mainRun true env5 4).map (fun x => (x.1, x.2.2)) := by
  have h := C9_forwarding_contract true env5 4
  have h1 := h.1 0 e5fin t5lit (by decide)
  exact ⟨h1.1, h1.2 Sig.INT (by decide), h.2 [false, true]⟩

end HealthNotify
